import Mathlib

/-!
# TinyHadronCollider: renderer and launch geometry

A shallow embedding of `include/Visualizer.hpp` (the `Visualizer` renderer: deferred draw
queue, CUDA/GL interop buffers with their growth policy, keyboard driven camera) and of the
`ThreadsLayout` constructor of `src/ResourceManager.cpp`.

Conventions of the embedding.

* `float` values are exact rationals (`ℚ`).
* `count_t` values are integers (`Int`); the conversions the source performs on them
  (`static_cast<unsigned>`, the implicit conversion to `size_t` in `sizeof(T) * count`) are
  explicit reductions modulo `2 ^ 32` and `2 ^ 64`.
* A GL buffer is represented by the byte size of its storage, a CUDA graphics resource handle
  by `none` (the null pointer) or `some b` (a registration of buffer `b`).
* Calls into Magnum, OpenGL and CUDA are recorded, in program order, in the field `calls`.
* A closure of the draw queue is the record of the values it captured (`DrawCmd`); running it
  is `drawLambda`.
* A checked CUDA call that fails, and a failing `assert`, end the run: fallible operations
  return `Except Crash _`, the crash carrying the renderer state at the point of failure.
-/

namespace THC

/-! ## Machine integers -/

/-- The conversion `static_cast<unsigned>(x)`: reduction modulo `2 ^ 32`. -/
def toUnsigned (x : Int) : Nat := (x % (2 ^ 32 : Int)).toNat

/-- The conversion of an integer to `size_t`: reduction modulo `2 ^ 64`. -/
def toSizeT (x : Int) : Nat := (x % (2 ^ 64 : Int)).toNat

/-- A count that every conversion of the source leaves unchanged: non-negative and within the
range of `unsigned`. -/
def InRange (count : Int) : Prop := 0 ≤ count ∧ count < 2 ^ 32

instance (count : Int) : Decidable (InRange count) := by
  unfold InRange; exact inferInstance

/-! ## `ThreadsLayout` (src/ResourceManager.cpp, lines 22-25) -/

/-- The launch geometry: both members are `unsigned`. -/
structure ThreadsLayout where
  gridDim : Nat
  blockDim : Nat
  deriving DecidableEq, Repr

/-- The constructor `ThreadsLayout::ThreadsLayout(count_t launchDim, count_t blockDim)`:
`gridDim(1U + launchDim / blockDim)`, `blockDim(static_cast<unsigned>(blockDim))`.
The quotient is C++ integer division (truncation towards zero). -/
def ThreadsLayout.new (launchDim blockDim : Int) : ThreadsLayout :=
  { gridDim := toUnsigned (1 + Int.tdiv launchDim blockDim)
    blockDim := toUnsigned blockDim }

/-! ## Data model of the renderer -/

/-- Modelled from the spec: `sizeof(Mat3x3f)`; `Matrix.hpp` is not among the sources. The
transform buffer holds one row-major 3×3 matrix of `float` per instance: 36 bytes. -/
def sizeofMat3x3f : Nat := 36

/-- Modelled from the spec: `sizeof(Vec4f)`; `Vector.hpp` is not among the sources. The colour
buffer holds one 4-component `float` vector per instance: 16 bytes. -/
def sizeofVec4f : Nat := 16

/-- The two interop buffers of the renderer. -/
inductive BufferName
  | color
  | transform
  deriving DecidableEq, Repr

/-- The keys `handleKeyboard` looks at, and any other key. -/
inductive Key
  | A | D | W | S | Q | E | Esc
  | other (code : Nat)
  deriving DecidableEq, Repr

/-- A closure of the draw queue: the values `drawLambda` captures by value in
`renderParticles` (the three pointers are device addresses). -/
structure DrawCmd where
  count : Int
  dPosition : Nat
  dRadius : Nat
  dColor : Nat
  deriving DecidableEq, Repr

/-- The calls the renderer makes into Magnum, OpenGL and CUDA. -/
inductive Call
  | invoke (cmd : DrawCmd)
  | cudaGraphicsUnregisterResource (b : BufferName)
  | setStorage (b : BufferName) (bytes : Nat)
  | cudaGraphicsGLRegisterBuffer (b : BufferName)
  | cudaGraphicsMapResources (b : BufferName)
  | cudaGraphicsResourceGetMappedPointer (b : BufferName) (size : Nat)
  | cudaMemcpy (bytes : Nat)
  | runSync1D (layout : ThreadsLayout) (count : Int)
  | cudaGraphicsUnmapResources (b : BufferName)
  | addVertexBufferInstanced (b : BufferName)
  | setInstanceCount (count : Int)
  | setTransformationProjectionMatrix
  | draw
  | clear
  | drawGUI
  | swapBuffers
  deriving DecidableEq, Repr

/-- The state of a `Visualizer`. -/
structure Visualizer where
  /-- The window size reported by the windowing system (`windowSize()`). -/
  windowSize : Int × Int
  /-- The deferred draw closures, front first (`drawQueue`). -/
  drawQueue : List DrawCmd
  /-- The keys currently held (`pressedKeys`). -/
  pressedKeys : List Key
  /-- The translation of `cameraObject`. -/
  cameraPosition : ℚ × ℚ
  /-- The diagonal of the projection matrix of `camera`. -/
  projectionMatrix : ℚ × ℚ
  currentZoom : ℚ
  /-- The byte size of the storage of `colorBuffer`. -/
  colorBuffer : Nat
  /-- The byte size of the storage of `transformBuffer`. -/
  transformBuffer : Nat
  colorResource : Option BufferName
  transformResource : Option BufferName
  /-- Set by `this->exit(0)`. -/
  exitRequested : Bool
  /-- The calls made so far, oldest first. -/
  calls : List Call

/-- What remains of a run that ended in a failure. -/
inductive Fault
  /-- A call wrapped in `CHECK_CUDA` reported an error. -/
  | cudaError
  /-- The condition of an `assert` was false. -/
  | assertionFailed
  deriving DecidableEq, Repr

/-- A failure together with the renderer state at the point of failure. -/
structure Crash where
  fault : Fault
  state : Visualizer

def INITIAL_RENDER_DISTANCE : ℚ := 3
def INITAL_CAMERA_POSITION : ℚ × ℚ := (1, 1)
def CAMERA_PAN_SPEED : ℚ := 16 / 1000
def CAMERA_ZOOM_SPEED : ℚ := 32 / 1000

/-- The constructor (lines 75-101): empty buffers, null resources, an identity projection, the
camera at `INITAL_CAMERA_POSITION` and the zoom `INITIAL_RENDER_DISTANCE / min(w, h)`. -/
def Visualizer.new (windowSize : Int × Int) : Visualizer :=
  { windowSize := windowSize
    drawQueue := []
    pressedKeys := []
    cameraPosition := INITAL_CAMERA_POSITION
    projectionMatrix := (1, 1)
    currentZoom := INITIAL_RENDER_DISTANCE / ((min windowSize.1 windowSize.2 : Int) : ℚ)
    colorBuffer := 0
    transformBuffer := 0
    colorResource := none
    transformResource := none
    exitRequested := false
    calls := [] }

namespace Visualizer

/-- Append calls to the log. -/
def log (v : Visualizer) (cs : List Call) : Visualizer :=
  { v with calls := v.calls ++ cs }

/-- The capacity of the interop buffers in elements: `transformBuffer.size() / sizeof(Mat3x3f)`
(line 130). -/
def capacity (v : Visualizer) : Nat := v.transformBuffer / sizeofMat3x3f

/-- The byte size of the storage of a buffer (`GL::Buffer::size()`). -/
def bufferSize (v : Visualizer) : BufferName → Nat
  | .color => v.colorBuffer
  | .transform => v.transformBuffer

/-! ## Camera (lines 182-248) -/

/-- The function `keyPressEvent`; `handled` is the answer of the GUI layer. -/
def keyPressEvent (handled : Bool) (k : Key) (v : Visualizer) : Visualizer :=
  if handled then v
  else { v with pressedKeys := if k ∈ v.pressedKeys then v.pressedKeys else k :: v.pressedKeys }

/-- The function `keyReleaseEvent`; `handled` is the answer of the GUI layer. -/
def keyReleaseEvent (handled : Bool) (k : Key) (v : Visualizer) : Visualizer :=
  if handled then v
  else { v with pressedKeys := v.pressedKeys.filter (fun x => x ≠ k) }

/-- The size of the orthographic projection: `camera.projectionSize()`, which Magnum reads off
the diagonal of the projection matrix. -/
def projectionSize (v : Visualizer) : ℚ × ℚ :=
  (2 / v.projectionMatrix.1, 2 / v.projectionMatrix.2)

/-- The function `updateProjectionMatrix` (lines 244-248): the projection
`Matrix3::projection(Vector2(windowSize()) * currentZoom)`, whose diagonal is `2 / size`. -/
def updateProjectionMatrix (v : Visualizer) : Visualizer :=
  { v with projectionMatrix :=
      (2 / ((v.windowSize.1 : ℚ) * v.currentZoom), 2 / ((v.windowSize.2 : ℚ) * v.currentZoom)) }

/-- The call `cameraObject.translate(d)`. -/
def translate (d : ℚ × ℚ) (v : Visualizer) : Visualizer :=
  { v with cameraPosition := (v.cameraPosition.1 + d.1, v.cameraPosition.2 + d.2) }

/-- The pan step of one tick (line 219):
`CAMERA_PAN_SPEED * std::min(projectionSize.x, projectionSize.y)`. -/
def cameraPanSpeed (v : Visualizer) : ℚ :=
  CAMERA_PAN_SPEED * min v.projectionSize.1 v.projectionSize.2

/-- The function `handleKeyboard` (lines 217-242). -/
def handleKeyboard (v : Visualizer) : Visualizer :=
  let cameraPanSpeed := v.cameraPanSpeed
  let v := if Key.A ∈ v.pressedKeys then v.translate (-cameraPanSpeed, 0) else v
  let v := if Key.D ∈ v.pressedKeys then v.translate (cameraPanSpeed, 0) else v
  let v := if Key.W ∈ v.pressedKeys then v.translate (0, cameraPanSpeed) else v
  let v := if Key.S ∈ v.pressedKeys then v.translate (0, -cameraPanSpeed) else v
  let v := if Key.Q ∈ v.pressedKeys then
    { v with currentZoom := v.currentZoom * (1 + CAMERA_ZOOM_SPEED) } else v
  let v := if Key.E ∈ v.pressedKeys then
    { v with currentZoom := v.currentZoom * (1 - CAMERA_ZOOM_SPEED) } else v
  let v := if Key.Esc ∈ v.pressedKeys then { v with exitRequested := true } else v
  v.updateProjectionMatrix

/-! ## Deferred particle draws (lines 127-166) -/

/-- The function `renderParticles`: build the closure and push it at the back of the queue. -/
def renderParticles (cmd : DrawCmd) (v : Visualizer) : Visualizer :=
  { v with drawQueue := v.drawQueue ++ [cmd] }

/-- The grow step of the closure (lines 130-139). The unregister calls are made when
`transformResource` is not null; they leave the two handles as they are, and the register
calls overwrite them. A call `setStorage(n)` is taken to leave the buffer with a storage of
exactly `n` bytes, and the unregister and register calls to succeed. -/
def growStep (count : Int) (v : Visualizer) : Visualizer :=
  if v.transformBuffer / sizeofMat3x3f < toUnsigned count then
    let v := if v.transformResource ≠ none then
      v.log [.cudaGraphicsUnregisterResource .color, .cudaGraphicsUnregisterResource .transform]
      else v
    let v := { v with transformBuffer := toSizeT (sizeofMat3x3f * count) }.log
      [.setStorage .transform (toSizeT (sizeofMat3x3f * count))]
    let v := { v with colorBuffer := toSizeT (sizeofVec4f * count) }.log
      [.setStorage .color (toSizeT (sizeofVec4f * count))]
    let v := { v with colorResource := some .color }.log [.cudaGraphicsGLRegisterBuffer .color]
    { v with transformResource := some .transform }.log [.cudaGraphicsGLRegisterBuffer .transform]
  else v

/-- Modelled from the spec: the outcome of `CHECK_CUDA(cudaGraphicsMapResources(1, &r))`; the
macro `CHECK_CUDA` of `internal/macros.hpp` is not among the sources. Every device error is
fatal, and mapping a resource that was never registered (a null handle) is an error; a
registered resource is mapped. -/
def checkedMap (r : Option BufferName) (v : Visualizer) : Except Crash BufferName :=
  match r with
  | none => .error ⟨.cudaError, v⟩
  | some b => .ok b

/-- The map step of the closure (lines 140-148): map the colour resource, map the transform
resource, then read the two mapped sizes. On success the result is the pair
`(dColorSize, dTransformSize)`: a mapped resource reports the byte size of its buffer. -/
def mapStep (v : Visualizer) : Except Crash (Visualizer × Nat × Nat) :=
  match checkedMap v.colorResource v with
  | .error e => .error e
  | .ok c =>
    let v := v.log [.cudaGraphicsMapResources c]
    match checkedMap v.transformResource v with
    | .error e => .error e
    | .ok t =>
      let v := v.log [.cudaGraphicsMapResources t]
      let dColorSize := v.bufferSize c
      let v := v.log [.cudaGraphicsResourceGetMappedPointer c dColorSize]
      let dTransformSize := v.bufferSize t
      let v := v.log [.cudaGraphicsResourceGetMappedPointer t dTransformSize]
      .ok (v, dColorSize, dTransformSize)

/-- The condition of the first `assert` (line 149): `dColorSize == sizeof(Vec4f) * count`. -/
def colorSizeAssert (count : Int) (dColorSize : Nat) : Bool :=
  dColorSize == toSizeT (sizeofVec4f * count)

/-- The condition of the second `assert` (line 150):
`dTransformSize == sizeof(Mat3x3f) * count`. -/
def transformSizeAssert (count : Int) (dTransformSize : Nat) : Bool :=
  dTransformSize == toSizeT (sizeofMat3x3f * count)

/-- The calls of lines 152-163 for a closure that captured `cmd`: the device-to-device copy of
the colours, the kernel launch over `ThreadsLayout(count, 256)`, the two unmaps, the instanced
vertex buffers, the instance count and the draw call. -/
def drawCalls (cmd : DrawCmd) : List Call :=
  [ .cudaMemcpy (toSizeT (sizeofVec4f * cmd.count)),
    .runSync1D (ThreadsLayout.new cmd.count 256) cmd.count,
    .cudaGraphicsUnmapResources .transform,
    .cudaGraphicsUnmapResources .color,
    .addVertexBufferInstanced .transform,
    .addVertexBufferInstanced .color,
    .setInstanceCount cmd.count,
    .setTransformationProjectionMatrix,
    .draw ]

/-- The rest of the closure (lines 152-163); none of these calls changes the renderer. -/
def writeAndDraw (cmd : DrawCmd) (v : Visualizer) : Visualizer :=
  v.log (drawCalls cmd)

/-- The closure `drawLambda` (lines 129-164). With `ndebug` the two `assert`s are compiled
out; without it a false condition ends the run. -/
def drawLambda (ndebug : Bool) (cmd : DrawCmd) (v : Visualizer) : Except Crash Visualizer :=
  match mapStep (growStep cmd.count v) with
  | .error e => .error e
  | .ok (v, dColorSize, dTransformSize) =>
    if !ndebug && !colorSizeAssert cmd.count dColorSize then .error ⟨.assertionFailed, v⟩
    else if !ndebug && !transformSizeAssert cmd.count dTransformSize then
      .error ⟨.assertionFailed, v⟩
    else .ok (writeAndDraw cmd v)

/-- The loop of `drawEvent` (lines 254-257) over the queued closures `q`, front first: invoke
the front closure, then pop it. The closures do not touch the queue, so `q` is the content of
`drawQueue` throughout. -/
def drain (ndebug : Bool) : List DrawCmd → Visualizer → Except Crash Visualizer
  | [], v => .ok v
  | cmd :: q, v =>
    match drawLambda ndebug cmd (v.log [.invoke cmd]) with
    | .error e => .error e
    | .ok v => drain ndebug q { v with drawQueue := v.drawQueue.tail }

/-- The function `drawEvent` up to the overlay phase (lines 252-257): keyboard, clear, drain. -/
def drainPhase (ndebug : Bool) (v : Visualizer) : Except Crash Visualizer :=
  let v := v.handleKeyboard.log [.clear]
  drain ndebug v.drawQueue v

/-- The function `drawEvent` (lines 250-261). -/
def drawEvent (ndebug : Bool) (v : Visualizer) : Except Crash Visualizer :=
  match drainPhase ndebug v with
  | .error e => .error e
  | .ok v => .ok (v.log [.drawGUI, .swapBuffers])

/-- One frame per requested count: each `renderParticles` call is drained by the `drawEvent`
that follows it. -/
def runFrames (ndebug : Bool) : List DrawCmd → Visualizer → Except Crash Visualizer
  | [], v => .ok v
  | cmd :: rest, v =>
    match drawEvent ndebug (v.renderParticles cmd) with
    | .error e => .error e
    | .ok v => runFrames ndebug rest v

/-- The function `viewportEvent` (lines 170-180) for a window resized to `size`. -/
def viewportEvent (size : Int × Int) (v : Visualizer) : Visualizer :=
  { v with windowSize := size }.updateProjectionMatrix

end Visualizer

/-! ## Vocabulary of the statements -/

/-- A draw request for `count` particles (the device addresses play no role in the model). -/
def DrawCmd.ofCount (count : Int) : DrawCmd := ⟨count, 0, 0, 0⟩

/-- The closures that were invoked, in order, according to a call log. -/
def invoked : List Call → List DrawCmd
  | [] => []
  | .invoke cmd :: cs => cmd :: invoked cs
  | _ :: cs => invoked cs

/-- The failure of a run, if it failed. -/
def faultOf : Except Crash Visualizer → Option Fault
  | .ok _ => none
  | .error e => some e.fault

/-- The renderer state at the end of a run: the result, or the state at the failure. -/
def finalState : Except Crash Visualizer → Visualizer
  | .ok v => v
  | .error e => e.state

/-- The unit vector of a directional key (`A` left, `D` right, `W` up, `S` down). -/
def direction : Key → ℚ × ℚ
  | .A => (-1, 0)
  | .D => (1, 0)
  | .W => (0, 1)
  | .S => (0, -1)
  | _ => (0, 0)

/-- The states a renderer can be in, between frames and inside one: a freshly constructed
renderer, and what the events, the start of a frame (keyboard and clear), one turn of the drain
loop on the front closure, and a whole `drawEvent` make of a reachable state. The counts handed
to `renderParticles` are in range, and a closure or frame that failed has no successor. -/
inductive Reachable : Visualizer → Prop
  | new (windowSize : Int × Int) : Reachable (Visualizer.new windowSize)
  | keyPress (handled : Bool) (k : Key) {v : Visualizer} :
      Reachable v → Reachable (v.keyPressEvent handled k)
  | keyRelease (handled : Bool) (k : Key) {v : Visualizer} :
      Reachable v → Reachable (v.keyReleaseEvent handled k)
  | viewport (size : Int × Int) {v : Visualizer} :
      Reachable v → Reachable (v.viewportEvent size)
  | renderParticles (cmd : DrawCmd) {v : Visualizer} :
      InRange cmd.count → Reachable v → Reachable (v.renderParticles cmd)
  | frameStart {v : Visualizer} : Reachable v → Reachable (v.handleKeyboard.log [.clear])
  | closure (ndebug : Bool) {cmd : DrawCmd} {q : List DrawCmd} {v w : Visualizer} :
      Reachable v → v.drawQueue = cmd :: q →
      (v.log [.invoke cmd]).drawLambda ndebug cmd = .ok w →
      Reachable { w with drawQueue := w.drawQueue.tail }
  | drawEvent (ndebug : Bool) {v w : Visualizer} :
      Reachable v → v.drawEvent ndebug = .ok w → Reachable w

/-- One pan statement of `handleKeyboard`: translate by `d` when `k` is held. -/
def Visualizer.panStep (k : Key) (d : ℚ × ℚ) (v : Visualizer) : Visualizer :=
  if k ∈ v.pressedKeys then v.translate d else v

/-- One zoom statement of `handleKeyboard`: scale the zoom by `f` when `k` is held. -/
def Visualizer.zoomStep (k : Key) (f : ℚ) (v : Visualizer) : Visualizer :=
  if k ∈ v.pressedKeys then { v with currentZoom := v.currentZoom * f } else v

/-- The exit statement of `handleKeyboard`. -/
def Visualizer.exitStep (v : Visualizer) : Visualizer :=
  if Key.Esc ∈ v.pressedKeys then { v with exitRequested := true } else v

/-- The fields that the camera code never writes. -/
def Visualizer.SameRenderer (a b : Visualizer) : Prop :=
  a.drawQueue = b.drawQueue ∧ a.calls = b.calls ∧ a.transformBuffer = b.transformBuffer ∧
    a.colorBuffer = b.colorBuffer ∧ a.colorResource = b.colorResource ∧
    a.transformResource = b.transformResource ∧ a.pressedKeys = b.pressedKeys ∧
    a.windowSize = b.windowSize

/-- The renderer at zoom factor `z`, with its projection matrix up to date. -/
def Visualizer.atZoom (v : Visualizer) (z : ℚ) : Visualizer :=
  { v with currentZoom := z }.updateProjectionMatrix

/-- The invariant of the interop buffers, for a capacity of `k` elements: both buffers hold
storage for exactly `k` elements, and both resources are registered exactly when `k` is
positive. -/
def BufInv (v : Visualizer) (k : Nat) : Prop :=
  k < 2 ^ 32 ∧
    v.transformBuffer = sizeofMat3x3f * k ∧ v.colorBuffer = sizeofVec4f * k ∧
    (k = 0 → v.colorResource = none ∧ v.transformResource = none) ∧
    (0 < k → v.colorResource = some .color ∧ v.transformResource = some .transform)

/-- The invariant of the renderer: the buffers are consistent at the capacity of the state,
the capacity is positive exactly when a closure with a positive count has been invoked, and
the queued counts are in range. -/
def Consistent (v : Visualizer) : Prop :=
  BufInv v v.capacity ∧
    (0 < v.capacity ↔ ∃ cmd ∈ invoked v.calls, 1 ≤ cmd.count) ∧
    ∀ cmd ∈ v.drawQueue, InRange cmd.count

/-- The calls of lines 145-148 on registered buffers of `k` elements. -/
def mapCalls (k : Nat) : List Call :=
  [ .cudaGraphicsMapResources .color,
    .cudaGraphicsMapResources .transform,
    .cudaGraphicsResourceGetMappedPointer .color (sizeofVec4f * k),
    .cudaGraphicsResourceGetMappedPointer .transform (sizeofMat3x3f * k) ]

/-! ## Arithmetic of the conversions -/

theorem toUnsigned_of_inRange {x : Int} (h : InRange x) : toUnsigned x = x.toNat := by
  unfold toUnsigned
  rw [Int.emod_eq_of_lt h.1 h.2]

theorem toSizeT_mul_of_inRange {s : Nat} {x : Int} (hs : s ≤ 2 ^ 32) (h : InRange x) :
    toSizeT ((s : Int) * x) = s * x.toNat := by
  obtain ⟨h0, h1⟩ := h
  have hs' : (s : Int) ≤ 2 ^ 32 := by exact_mod_cast hs
  have hnn : (0 : Int) ≤ (s : Int) * x := mul_nonneg (Int.ofNat_nonneg s) h0
  have hlt : (s : Int) * x < 2 ^ 64 := by nlinarith
  unfold toSizeT
  rw [Int.emod_eq_of_lt hnn hlt]
  have hx : ((x.toNat : Nat) : Int) = x := Int.toNat_of_nonneg h0
  apply Int.ofNat_inj.mp
  rw [Int.toNat_of_nonneg hnn]
  push_cast
  rw [hx]

/-! ## Launch geometry -/

theorem gridDim_of_noOverflow (launchDim blockDim : Int) (hl : 0 ≤ launchDim)
    (hb : 1 ≤ blockDim) (hno : launchDim / blockDim + 1 < 2 ^ 32) :
    ((ThreadsLayout.new launchDim blockDim).gridDim : Int) = launchDim / blockDim + 1 := by
  have hq : 0 ≤ launchDim / blockDim := Int.ediv_nonneg hl (by omega)
  have ht : Int.tdiv launchDim blockDim = launchDim / blockDim :=
    Int.tdiv_eq_ediv hl (by omega)
  show ((toUnsigned (1 + Int.tdiv launchDim blockDim) : Nat) : Int) = _
  rw [ht, toUnsigned_of_inRange ⟨by omega, by omega⟩, Int.toNat_of_nonneg (by omega)]
  omega

theorem ceil_div_of_not_dvd (l b : Int) (hb : 1 ≤ b) (hnd : ¬ b ∣ l) :
    ⌈(l : ℚ) / (b : ℚ)⌉ = l / b + 1 := by
  have hbq : (0 : ℚ) < (b : ℚ) := by exact_mod_cast (by omega : (0 : Int) < b)
  have hdm : b * (l / b) + l % b = l := Int.ediv_add_emod l b
  have hr0 : 0 ≤ l % b := Int.emod_nonneg l (by omega)
  have hr1 : l % b < b := Int.emod_lt_of_pos l (by omega)
  have hrne : l % b ≠ 0 := fun h => hnd (Int.dvd_of_emod_eq_zero h)
  have hlq : (l : ℚ) = (b : ℚ) * ((l / b : Int) : ℚ) + ((l % b : Int) : ℚ) := by
    exact_mod_cast hdm.symm
  have hr0q : (0 : ℚ) < ((l % b : Int) : ℚ) := by
    exact_mod_cast (by omega : (0 : Int) < l % b)
  have hr1q : ((l % b : Int) : ℚ) < (b : ℚ) := by exact_mod_cast hr1
  rw [Int.ceil_eq_iff]
  constructor
  · rw [lt_div_iff₀ hbq]
    push_cast
    nlinarith
  · rw [div_le_iff₀ hbq]
    push_cast
    nlinarith

theorem ceil_div_of_dvd (l b : Int) (hb : 1 ≤ b) (hd : b ∣ l) :
    ⌈(l : ℚ) / (b : ℚ)⌉ = l / b := by
  have hbq : (b : ℚ) ≠ 0 := by exact_mod_cast (by omega : b ≠ 0)
  obtain ⟨k, rfl⟩ := hd
  rw [Int.mul_ediv_cancel_left k (by omega : b ≠ 0)]
  push_cast
  rw [mul_div_cancel_left₀ _ hbq]
  exact Int.ceil_intCast k

/-- C3, as stated, fails: for a launch count of 256 and a block size of 256 the constructor
computes a grid dimension of 2, while `ceil(256 / 256)` is 1. -/
theorem C3_counterexample :
    ¬ (((ThreadsLayout.new 256 256).gridDim : Int) = ⌈((256 : Int) : ℚ) / ((256 : Int) : ℚ)⌉) := by
  have h1 : ⌈((256 : Int) : ℚ) / ((256 : Int) : ℚ)⌉ = 1 := by
    rw [ceil_div_of_dvd 256 256 (by norm_num) (dvd_refl _)]; norm_num
  have h2 : (ThreadsLayout.new 256 256).gridDim = 2 := by decide
  rw [h1, h2]
  norm_num

/-- C3, amended: for every launch count `launchDim >= 0` and block size `blockDim >= 1` whose
quotient fits in `unsigned`, the grid dimension is `floor(launchDim / blockDim) + 1`; this is
`ceil(launchDim / blockDim)` when `blockDim` does not divide `launchDim`, and
`ceil(launchDim / blockDim) + 1` when it does. -/
theorem C3_gridDim_floor_add_one (launchDim blockDim : Int) (hl : 0 ≤ launchDim)
    (hb : 1 ≤ blockDim) (hno : launchDim / blockDim + 1 < 2 ^ 32) :
    ((ThreadsLayout.new launchDim blockDim).gridDim : Int) = launchDim / blockDim + 1 ∧
    (¬ blockDim ∣ launchDim →
      ((ThreadsLayout.new launchDim blockDim).gridDim : Int)
        = ⌈(launchDim : ℚ) / (blockDim : ℚ)⌉) ∧
    (blockDim ∣ launchDim →
      ((ThreadsLayout.new launchDim blockDim).gridDim : Int)
        = ⌈(launchDim : ℚ) / (blockDim : ℚ)⌉ + 1) := by
  have hg := gridDim_of_noOverflow launchDim blockDim hl hb hno
  refine ⟨hg, fun hnd => ?_, fun hd => ?_⟩
  · rw [hg, ceil_div_of_not_dvd launchDim blockDim hb hnd]
  · rw [hg, ceil_div_of_dvd launchDim blockDim hb hd]

/-- C3, amended, at a launch count of 1000 and a block size of 256. -/
theorem C3_gridDim_floor_add_one_witness :
    ((ThreadsLayout.new 1000 256).gridDim : Int) = 1000 / 256 + 1 ∧
    (¬ (256 : Int) ∣ 1000 →
      ((ThreadsLayout.new 1000 256).gridDim : Int) = ⌈((1000 : Int) : ℚ) / ((256 : Int) : ℚ)⌉) ∧
    ((256 : Int) ∣ 1000 →
      ((ThreadsLayout.new 1000 256).gridDim : Int)
        = ⌈((1000 : Int) : ℚ) / ((256 : Int) : ℚ)⌉ + 1) :=
  C3_gridDim_floor_add_one 1000 256 (by decide) (by decide) (by decide)

/-- C4: for every launch count `launchDim >= 0` and block size `blockDim >= 1`, when neither
member of the layout overflows `unsigned`, the layout built by the constructor satisfies
`gridDim * blockDim >= launchDim`. -/
theorem C4_grid_covers_launch (launchDim blockDim : Int) (hl : 0 ≤ launchDim)
    (hb : 1 ≤ blockDim) (hb32 : blockDim < 2 ^ 32) (hno : launchDim / blockDim + 1 < 2 ^ 32) :
    launchDim ≤ ((ThreadsLayout.new launchDim blockDim).gridDim : Int)
      * ((ThreadsLayout.new launchDim blockDim).blockDim : Int) := by
  have hg := gridDim_of_noOverflow launchDim blockDim hl hb hno
  have hbd : (((ThreadsLayout.new launchDim blockDim).blockDim : Nat) : Int) = blockDim := by
    show ((toUnsigned blockDim : Nat) : Int) = _
    rw [toUnsigned_of_inRange ⟨by omega, hb32⟩, Int.toNat_of_nonneg (by omega)]
  rw [hg, hbd]
  have hdm : blockDim * (launchDim / blockDim) + launchDim % blockDim = launchDim :=
    Int.ediv_add_emod launchDim blockDim
  have hr1 : launchDim % blockDim < blockDim := Int.emod_lt_of_pos launchDim (by omega)
  nlinarith

/-- C4 at a launch count of 1000 and a block size of 256: 4 blocks of 256 threads. -/
theorem C4_grid_covers_launch_witness :
    (1000 : Int) ≤ ((ThreadsLayout.new 1000 256).gridDim : Int)
      * ((ThreadsLayout.new 1000 256).blockDim : Int) :=
  C4_grid_covers_launch 1000 256 (by decide) (by decide) (by decide) (by decide)


/-! ## The call log -/

namespace Visualizer

@[simp] theorem log_calls (v : Visualizer) (cs : List Call) : (v.log cs).calls = v.calls ++ cs :=
  rfl

@[simp] theorem log_drawQueue (v : Visualizer) (cs : List Call) :
    (v.log cs).drawQueue = v.drawQueue := rfl

@[simp] theorem log_transformBuffer (v : Visualizer) (cs : List Call) :
    (v.log cs).transformBuffer = v.transformBuffer := rfl

@[simp] theorem log_colorBuffer (v : Visualizer) (cs : List Call) :
    (v.log cs).colorBuffer = v.colorBuffer := rfl

@[simp] theorem log_colorResource (v : Visualizer) (cs : List Call) :
    (v.log cs).colorResource = v.colorResource := rfl

@[simp] theorem log_transformResource (v : Visualizer) (cs : List Call) :
    (v.log cs).transformResource = v.transformResource := rfl

@[simp] theorem log_capacity (v : Visualizer) (cs : List Call) :
    (v.log cs).capacity = v.capacity := rfl

@[simp] theorem log_pressedKeys (v : Visualizer) (cs : List Call) :
    (v.log cs).pressedKeys = v.pressedKeys := rfl

@[simp] theorem log_cameraPosition (v : Visualizer) (cs : List Call) :
    (v.log cs).cameraPosition = v.cameraPosition := rfl

@[simp] theorem log_currentZoom (v : Visualizer) (cs : List Call) :
    (v.log cs).currentZoom = v.currentZoom := rfl

@[simp] theorem log_log (v : Visualizer) (cs ds : List Call) :
    (v.log cs).log ds = v.log (cs ++ ds) := by
  simp [log]

theorem log_nil (v : Visualizer) : v.log [] = v := by
  simp [log]

end Visualizer

theorem invoked_append (a b : List Call) : invoked (a ++ b) = invoked a ++ invoked b := by
  induction a with
  | nil => rfl
  | cons c a ih =>
    cases c <;> simp [invoked, ih]

theorem bufInv_log {v : Visualizer} {k : Nat} (h : BufInv v k) (cs : List Call) :
    BufInv (v.log cs) k := h

theorem bufInv_capacity {v : Visualizer} {k : Nat} (h : BufInv v k) : v.capacity = k := by
  obtain ⟨_, ht, _⟩ := h
  simp [Visualizer.capacity, ht, sizeofMat3x3f]

/-! ## The grow step -/

namespace Visualizer

theorem growStep_of_not_lt {v : Visualizer} {count : Int}
    (h : ¬ v.transformBuffer / sizeofMat3x3f < toUnsigned count) : growStep count v = v := by
  simp [growStep, h]

/-- The calls of the growth path, for a renderer that was registered or not. -/
theorem growStep_of_lt {v : Visualizer} {count : Int}
    (h : v.transformBuffer / sizeofMat3x3f < toUnsigned count) :
    (growStep count v).transformBuffer = toSizeT (sizeofMat3x3f * count) ∧
    (growStep count v).colorBuffer = toSizeT (sizeofVec4f * count) ∧
    (growStep count v).colorResource = some .color ∧
    (growStep count v).transformResource = some .transform ∧
    (growStep count v).drawQueue = v.drawQueue ∧
    (growStep count v).calls = v.calls ++
      ((if v.transformResource ≠ none then
          [.cudaGraphicsUnregisterResource .color, .cudaGraphicsUnregisterResource .transform]
        else []) ++
       [.setStorage .transform (toSizeT (sizeofMat3x3f * count)),
        .setStorage .color (toSizeT (sizeofVec4f * count)),
        .cudaGraphicsGLRegisterBuffer .color,
        .cudaGraphicsGLRegisterBuffer .transform]) := by
  by_cases hr : v.transformResource = none <;> simp [growStep, h, hr, log]

end Visualizer


namespace Visualizer

theorem growStep_of_le {v : Visualizer} {k : Nat} {count : Int} (h : BufInv v k)
    (hc : InRange count) (hle : count.toNat ≤ k) : growStep count v = v := by
  apply growStep_of_not_lt
  have hk : v.transformBuffer / sizeofMat3x3f = k := bufInv_capacity h
  rw [hk, toUnsigned_of_inRange hc]
  omega

/-- The calls of the growth path for a request of `n` elements, on a renderer that was
registered or not. -/
theorem growStep_of_gt {v : Visualizer} {k : Nat} {count : Int} (h : BufInv v k)
    (hc : InRange count) (hlt : k < count.toNat) :
    BufInv (growStep count v) count.toNat ∧
    (growStep count v).drawQueue = v.drawQueue ∧
    (growStep count v).calls = v.calls ++
      ((if 0 < k then
          [.cudaGraphicsUnregisterResource .color, .cudaGraphicsUnregisterResource .transform]
        else []) ++
       [.setStorage .transform (sizeofMat3x3f * count.toNat),
        .setStorage .color (sizeofVec4f * count.toNat),
        .cudaGraphicsGLRegisterBuffer .color,
        .cudaGraphicsGLRegisterBuffer .transform]) := by
  have hk : v.transformBuffer / sizeofMat3x3f = k := bufInv_capacity h
  have hlt' : v.transformBuffer / sizeofMat3x3f < toUnsigned count := by
    rw [hk, toUnsigned_of_inRange hc]; exact hlt
  obtain ⟨ht, hcb, hcr, htr, hq, hcalls⟩ := growStep_of_lt hlt'
  have hm : toSizeT ((sizeofMat3x3f : Int) * count) = sizeofMat3x3f * count.toNat :=
    toSizeT_mul_of_inRange (by decide) hc
  have hv : toSizeT ((sizeofVec4f : Int) * count) = sizeofVec4f * count.toNat :=
    toSizeT_mul_of_inRange (by decide) hc
  have hn32 : count.toNat < 2 ^ 32 := by
    have := hc.1; have := hc.2; omega
  refine ⟨⟨hn32, by rw [ht, hm], by rw [hcb, hv], fun h0 => by omega, fun _ => ⟨hcr, htr⟩⟩,
    hq, ?_⟩
  rw [hcalls, hm, hv]
  obtain ⟨_, _, _, hz, hp⟩ := h
  rcases Nat.eq_zero_or_pos k with h0 | h0
  · have := (hz h0).2
    simp [this, h0]
  · have := (hp h0).2
    simp [this, h0]

/-- The grow step leaves consistent buffers consistent, at the larger of the old capacity and
the requested count. -/
theorem growStep_bufInv {v : Visualizer} {k : Nat} {count : Int} (h : BufInv v k)
    (hc : InRange count) : BufInv (growStep count v) (max k count.toNat) := by
  rcases Nat.lt_or_ge k count.toNat with hlt | hle
  · rw [Nat.max_eq_right (Nat.le_of_lt hlt)]
    exact (growStep_of_gt h hc hlt).1
  · rw [Nat.max_eq_left hle, growStep_of_le h hc hle]
    exact h

theorem mapStep_of_pos {v : Visualizer} {k : Nat} (h : BufInv v k) (hk : 0 < k) :
    mapStep v = .ok (v.log (mapCalls k), sizeofVec4f * k, sizeofMat3x3f * k) := by
  obtain ⟨_, ht, hcb, _, hp⟩ := h
  obtain ⟨hcr, htr⟩ := hp hk
  simp [mapStep, checkedMap, hcr, htr, bufferSize, ht, hcb, mapCalls]

theorem mapStep_of_zero {v : Visualizer} (h : BufInv v 0) :
    mapStep v = .error ⟨.cudaError, v⟩ := by
  obtain ⟨_, _, _, hz, _⟩ := h
  simp [mapStep, checkedMap, (hz rfl).1]

theorem colorSizeAssert_iff {count : Int} (hc : InRange count) (k : Nat) :
    colorSizeAssert count (sizeofVec4f * k) = true ↔ k = count.toNat := by
  have hv : toSizeT ((sizeofVec4f : Int) * count) = sizeofVec4f * count.toNat :=
    toSizeT_mul_of_inRange (by decide) hc
  unfold colorSizeAssert
  rw [hv]
  simp [sizeofVec4f]

theorem transformSizeAssert_iff {count : Int} (hc : InRange count) (k : Nat) :
    transformSizeAssert count (sizeofMat3x3f * k) = true ↔ k = count.toNat := by
  have hm : toSizeT ((sizeofMat3x3f : Int) * count) = sizeofMat3x3f * count.toNat :=
    toSizeT_mul_of_inRange (by decide) hc
  unfold transformSizeAssert
  rw [hm]
  simp [sizeofMat3x3f]

/-! ## The three outcomes of a closure -/

/-- A closure for no particles on buffers that were never sized: the map call fails. -/
theorem drawLambda_unregistered (ndebug : Bool) {cmd : DrawCmd} {v : Visualizer}
    (h : BufInv v 0) (hc : cmd.count = 0) :
    drawLambda ndebug cmd v = .error ⟨.cudaError, v⟩ := by
  have hr : InRange cmd.count := by rw [hc]; decide
  have hg : growStep cmd.count v = v := growStep_of_le h hr (by rw [hc]; decide)
  simp [drawLambda, hg, mapStep_of_zero h]

/-- A closure whose count is below the capacity, with the assertions compiled in: the first
size assertion fails. -/
theorem drawLambda_assertionFailed {cmd : DrawCmd} {v : Visualizer} {k : Nat}
    (h : BufInv v k) (hc : InRange cmd.count) (hlt : cmd.count.toNat < k) :
    drawLambda false cmd v = .error ⟨.assertionFailed, v.log (mapCalls k)⟩ := by
  have hg : growStep cmd.count v = v := growStep_of_le h hc (Nat.le_of_lt hlt)
  have hk : 0 < k := by omega
  have ha : colorSizeAssert cmd.count (sizeofVec4f * k) = false := by
    rw [Bool.eq_false_iff]
    intro hcon
    have := (colorSizeAssert_iff hc k).1 hcon
    omega
  simp [drawLambda, hg, mapStep_of_pos h hk, ha]

/-- A closure on registered buffers, or for at least one particle, that the assertions let
pass: it runs to the draw call. -/
theorem drawLambda_ok (ndebug : Bool) {cmd : DrawCmd} {v : Visualizer} {k : Nat}
    (h : BufInv v k) (hc : InRange cmd.count) (hpos : 0 < max k cmd.count.toNat)
    (hpass : ndebug = true ∨ k ≤ cmd.count.toNat) :
    drawLambda ndebug cmd v =
      .ok (((growStep cmd.count v).log (mapCalls (max k cmd.count.toNat))).log
        (drawCalls cmd)) := by
  have hb := growStep_bufInv h hc
  rcases hpass with hnd | hle
  · simp [drawLambda, mapStep_of_pos hb hpos, hnd, writeAndDraw]
  · have hmax : max k cmd.count.toNat = cmd.count.toNat := Nat.max_eq_right hle
    have h1 : colorSizeAssert cmd.count (sizeofVec4f * max k cmd.count.toNat) = true :=
      (colorSizeAssert_iff hc _).2 hmax
    have h2 : transformSizeAssert cmd.count (sizeofMat3x3f * max k cmd.count.toNat) = true :=
      (transformSizeAssert_iff hc _).2 hmax
    simp [drawLambda, mapStep_of_pos hb hpos, h1, h2, writeAndDraw]

end Visualizer


/-! ## What the keyboard and a closure leave alone -/

namespace Visualizer

/-- The function `handleKeyboard` is its seven statements in sequence, followed by the update
of the projection. -/
theorem handleKeyboard_eq (v : Visualizer) :
    v.handleKeyboard =
      (exitStep (zoomStep .E (1 - CAMERA_ZOOM_SPEED) (zoomStep .Q (1 + CAMERA_ZOOM_SPEED)
        (panStep .S (0, -v.cameraPanSpeed) (panStep .W (0, v.cameraPanSpeed)
          (panStep .D (v.cameraPanSpeed, 0)
            (panStep .A (-v.cameraPanSpeed, 0) v))))))).updateProjectionMatrix := rfl

theorem SameRenderer.rfl' (a : Visualizer) : SameRenderer a a :=
  ⟨rfl, rfl, rfl, rfl, rfl, rfl, rfl, rfl⟩

theorem SameRenderer.trans' {a b c : Visualizer} (h : SameRenderer a b) (g : SameRenderer b c) :
    SameRenderer a c := by
  obtain ⟨h1, h2, h3, h4, h5, h6, h7, h8⟩ := h
  obtain ⟨g1, g2, g3, g4, g5, g6, g7, g8⟩ := g
  exact ⟨h1.trans g1, h2.trans g2, h3.trans g3, h4.trans g4, h5.trans g5, h6.trans g6,
    h7.trans g7, h8.trans g8⟩

theorem panStep_same (k : Key) (d : ℚ × ℚ) (v : Visualizer) : SameRenderer (panStep k d v) v := by
  unfold panStep
  split_ifs
  · exact ⟨rfl, rfl, rfl, rfl, rfl, rfl, rfl, rfl⟩
  · exact SameRenderer.rfl' v

theorem zoomStep_same (k : Key) (f : ℚ) (v : Visualizer) : SameRenderer (zoomStep k f v) v := by
  unfold zoomStep
  split_ifs
  · exact ⟨rfl, rfl, rfl, rfl, rfl, rfl, rfl, rfl⟩
  · exact SameRenderer.rfl' v

theorem exitStep_same (v : Visualizer) : SameRenderer (exitStep v) v := by
  unfold exitStep
  split_ifs
  · exact ⟨rfl, rfl, rfl, rfl, rfl, rfl, rfl, rfl⟩
  · exact SameRenderer.rfl' v

theorem updateProjectionMatrix_same (v : Visualizer) :
    SameRenderer v.updateProjectionMatrix v :=
  ⟨rfl, rfl, rfl, rfl, rfl, rfl, rfl, rfl⟩

theorem handleKeyboard_frame (v : Visualizer) : SameRenderer v.handleKeyboard v := by
  rw [handleKeyboard_eq]
  refine (updateProjectionMatrix_same _).trans' ?_
  refine (exitStep_same _).trans' ?_
  refine (zoomStep_same _ _ _).trans' ?_
  refine (zoomStep_same _ _ _).trans' ?_
  refine (panStep_same _ _ _).trans' ?_
  refine (panStep_same _ _ _).trans' ?_
  refine (panStep_same _ _ _).trans' ?_
  exact panStep_same _ _ _

theorem growStep_frame (count : Int) (v : Visualizer) :
    (growStep count v).drawQueue = v.drawQueue ∧
    invoked (growStep count v).calls = invoked v.calls ∧
    (growStep count v).pressedKeys = v.pressedKeys ∧
    (growStep count v).cameraPosition = v.cameraPosition ∧
    (growStep count v).currentZoom = v.currentZoom := by
  by_cases h : v.transformBuffer / sizeofMat3x3f < toUnsigned count
  · obtain ⟨_, _, _, _, hq, hcalls⟩ := growStep_of_lt h
    refine ⟨hq, ?_, ?_, ?_, ?_⟩
    · rw [hcalls, invoked_append]
      by_cases hr : v.transformResource = none <;> simp [hr, invoked]
    all_goals
      by_cases hr : v.transformResource = none <;> simp [growStep, h, hr, log]
  · rw [growStep_of_not_lt h]
    exact ⟨rfl, rfl, rfl, rfl, rfl⟩

/-- The map step either succeeds or fails on a null resource; in both cases the state is the
one it started from, with map calls added to the log. -/
theorem mapStep_cases (v : Visualizer) :
    (∃ cs dc dt, mapStep v = .ok (v.log cs, dc, dt) ∧ invoked cs = []) ∨
    (∃ cs, mapStep v = .error ⟨.cudaError, v.log cs⟩ ∧ invoked cs = []) := by
  unfold mapStep
  cases hcr : v.colorResource with
  | none => exact Or.inr ⟨[], by simp [log, checkedMap], rfl⟩
  | some c =>
    cases htr : v.transformResource with
    | none => exact Or.inr ⟨[.cudaGraphicsMapResources c], by simp [htr, checkedMap], rfl⟩
    | some t =>
      refine Or.inl ⟨[.cudaGraphicsMapResources c, .cudaGraphicsMapResources t,
        .cudaGraphicsResourceGetMappedPointer c (v.bufferSize c),
        .cudaGraphicsResourceGetMappedPointer t (v.bufferSize t)], v.bufferSize c,
        v.bufferSize t, ?_, rfl⟩
      simp only [checkedMap, log_transformResource, htr, log_log]
      rfl

/-- A closure, whether it runs to the end or fails, ends in the state after its grow step, with
calls other than invocations added to the log. -/
theorem drawLambda_cases (ndebug : Bool) (cmd : DrawCmd) (v : Visualizer) :
    ∃ cs, finalState (drawLambda ndebug cmd v) = (growStep cmd.count v).log cs ∧
      invoked cs = [] := by
  unfold drawLambda
  rcases mapStep_cases (growStep cmd.count v) with ⟨cs, dc, dt, hm, hi⟩ | ⟨cs, hm, hi⟩
  · rw [hm]
    dsimp only
    split_ifs
    · exact ⟨cs, rfl, hi⟩
    · exact ⟨cs, rfl, hi⟩
    · exact ⟨cs ++ drawCalls cmd, by simp [finalState, writeAndDraw], by
        rw [invoked_append, hi]; rfl⟩
  · rw [hm]
    exact ⟨cs, rfl, hi⟩

theorem drawLambda_frame (ndebug : Bool) (cmd : DrawCmd) (v : Visualizer) :
    (finalState (drawLambda ndebug cmd v)).drawQueue = v.drawQueue ∧
    invoked (finalState (drawLambda ndebug cmd v)).calls = invoked v.calls ∧
    (finalState (drawLambda ndebug cmd v)).pressedKeys = v.pressedKeys ∧
    (finalState (drawLambda ndebug cmd v)).cameraPosition = v.cameraPosition ∧
    (finalState (drawLambda ndebug cmd v)).currentZoom = v.currentZoom := by
  obtain ⟨hq, hi, hp, hcam, hz⟩ := growStep_frame cmd.count v
  obtain ⟨cs, hf, hcs⟩ := drawLambda_cases ndebug cmd v
  rw [hf]
  refine ⟨hq, ?_, hp, hcam, hz⟩
  rw [log_calls, invoked_append, hcs, hi, List.append_nil]

end Visualizer


/-! ## The invariant of the renderer -/

theorem consistent_congr {a b : Visualizer} (hq : a.drawQueue = b.drawQueue)
    (hc : a.calls = b.calls) (ht : a.transformBuffer = b.transformBuffer)
    (hcb : a.colorBuffer = b.colorBuffer) (hcr : a.colorResource = b.colorResource)
    (htr : a.transformResource = b.transformResource) (h : Consistent b) : Consistent a := by
  have hcap : a.capacity = b.capacity := by simp [Visualizer.capacity, ht]
  obtain ⟨⟨h1, h2, h3, h4, h5⟩, hi, hr⟩ := h
  refine ⟨⟨?_, ?_, ?_, ?_, ?_⟩, ?_, ?_⟩
  · rw [hcap]; exact h1
  · rw [hcap, ht]; exact h2
  · rw [hcap, hcb]; exact h3
  · rw [hcap, hcr, htr]; exact h4
  · rw [hcap, hcr, htr]; exact h5
  · rw [hcap, hc]; exact hi
  · rw [hq]; exact hr

theorem consistent_of_same {a b : Visualizer} (hs : Visualizer.SameRenderer a b)
    (h : Consistent b) : Consistent a := by
  obtain ⟨h1, h2, h3, h4, h5, h6, _, _⟩ := hs
  exact consistent_congr h1 h2 h3 h4 h5 h6 h

theorem consistent_new (windowSize : Int × Int) : Consistent (Visualizer.new windowSize) := by
  have hcap : (Visualizer.new windowSize).capacity = 0 := by
    simp [Visualizer.capacity, Visualizer.new]
  unfold Consistent BufInv
  rw [hcap]
  refine ⟨⟨by decide, rfl, rfl, fun _ => ⟨rfl, rfl⟩, fun h => ?_⟩, ?_, ?_⟩
  · exact absurd h (by decide)
  · constructor
    · intro h; exact absurd h (by decide)
    · rintro ⟨cmd, hm, _⟩
      simp [Visualizer.new, invoked] at hm
  · intro cmd hm
    simp [Visualizer.new] at hm

namespace Visualizer

/-- A closure that ran to the end: the buffers are consistent at the larger of the old capacity
and the count, which is positive, the assertions were compiled out or the count was at least
the capacity, and the state is the one after the grow step with the map and draw calls
logged. -/
theorem drawLambda_ok_inv (ndebug : Bool) {cmd : DrawCmd} {v w : Visualizer} {k : Nat}
    (h : BufInv v k) (hc : InRange cmd.count) (hw : drawLambda ndebug cmd v = .ok w) :
    0 < max k cmd.count.toNat ∧ (ndebug = true ∨ k ≤ cmd.count.toNat) ∧
    w = ((growStep cmd.count v).log (mapCalls (max k cmd.count.toNat))).log (drawCalls cmd) ∧
    BufInv w (max k cmd.count.toNat) := by
  have hpos : 0 < max k cmd.count.toNat := by
    by_contra hcon
    have hz : max k cmd.count.toNat = 0 := by omega
    have hk : k = 0 := by omega
    have hn : cmd.count = 0 := by
      have h0 := hc.1
      have : cmd.count.toNat = 0 := by omega
      omega
    subst hk
    rw [drawLambda_unregistered ndebug h hn] at hw
    cases hw
  have hpass : ndebug = true ∨ k ≤ cmd.count.toNat := by
    by_contra hcon
    push_neg at hcon
    obtain ⟨hnd, hlt⟩ := hcon
    have hnd' : ndebug = false := by simpa using hnd
    subst hnd'
    rw [drawLambda_assertionFailed h hc hlt] at hw
    cases hw
  have heq := drawLambda_ok ndebug h hc hpos hpass
  rw [heq] at hw
  injection hw with hw
  refine ⟨hpos, hpass, hw.symm, ?_⟩
  rw [← hw]
  exact growStep_bufInv h hc

/-- One turn of the drain loop keeps the invariant. -/
theorem consistent_after_closure (ndebug : Bool) {cmd : DrawCmd} {v w : Visualizer}
    (h : Consistent v) (hc : InRange cmd.count)
    (hw : drawLambda ndebug cmd (v.log [.invoke cmd]) = .ok w) :
    Consistent { w with drawQueue := w.drawQueue.tail } := by
  obtain ⟨hb, hi, hr⟩ := h
  have hb0 : BufInv (v.log [.invoke cmd]) v.capacity := hb
  obtain ⟨hpos, _, _, hbw⟩ := drawLambda_ok_inv ndebug hb0 hc hw
  obtain ⟨hq, hinv, _⟩ := drawLambda_frame ndebug cmd (v.log [.invoke cmd])
  rw [hw] at hq hinv
  simp only [finalState, log_drawQueue, log_calls, invoked_append] at hq hinv
  have hcap : w.capacity = max v.capacity cmd.count.toNat := bufInv_capacity hbw
  have hcap' : ({ w with drawQueue := w.drawQueue.tail } : Visualizer).capacity
      = max v.capacity cmd.count.toNat := hcap
  refine ⟨?_, ?_, ?_⟩
  · rw [hcap']; exact hbw
  · rw [hcap']
    show _ ↔ ∃ c ∈ invoked w.calls, 1 ≤ c.count
    rw [hinv]
    constructor
    · intro _
      rcases Nat.eq_zero_or_pos v.capacity with h0 | h0
      · refine ⟨cmd, by simp [invoked], ?_⟩
        have := hc.1
        omega
      · obtain ⟨c, hcm, hc1⟩ := hi.1 h0
        exact ⟨c, List.mem_append_left _ hcm, hc1⟩
    · intro _
      exact hpos
  · intro c hcm
    apply hr
    rw [← hq]
    exact List.mem_of_mem_tail hcm

theorem drain_consistent (ndebug : Bool) :
    ∀ (q : List DrawCmd) (v w : Visualizer), Consistent v → (∀ cmd ∈ q, InRange cmd.count) →
      drain ndebug q v = .ok w → Consistent w := by
  intro q
  induction q with
  | nil =>
    intro v w h _ hw
    simp only [drain] at hw
    injection hw with hw
    rw [← hw]; exact h
  | cons cmd q ih =>
    intro v w h hr hw
    simp only [drain] at hw
    cases hd : drawLambda ndebug cmd (v.log [.invoke cmd]) with
    | error e => rw [hd] at hw; cases hw
    | ok w1 =>
      rw [hd] at hw
      exact ih _ w (consistent_after_closure ndebug h (hr cmd (List.mem_cons_self _ _)) hd)
        (fun c hc => hr c (List.mem_cons_of_mem _ hc)) hw

theorem frameStart_consistent {v : Visualizer} (h : Consistent v) :
    Consistent (v.handleKeyboard.log [.clear]) := by
  obtain ⟨h1, h2, h3, h4, h5, h6, _, _⟩ := handleKeyboard_frame v
  obtain ⟨hb, hi, hr⟩ := h
  have hcap : (v.handleKeyboard.log [.clear]).capacity = v.capacity := by
    simp [capacity, h3]
  refine ⟨?_, ?_, ?_⟩
  · rw [hcap]
    obtain ⟨b1, b2, b3, b4, b5⟩ := hb
    exact ⟨b1, by simpa [h3] using b2, by simpa [h4] using b3,
      by simpa [h5, h6] using b4, by simpa [h5, h6] using b5⟩
  · rw [hcap, log_calls, h2, invoked_append]
    simpa [invoked] using hi
  · simpa [h1] using hr

theorem drainPhase_consistent (ndebug : Bool) {v w : Visualizer} (h : Consistent v)
    (hw : drainPhase ndebug v = .ok w) : Consistent w :=
  drain_consistent ndebug _ _ w (frameStart_consistent h) (frameStart_consistent h).2.2 hw

theorem drawEvent_consistent (ndebug : Bool) {v w : Visualizer} (h : Consistent v)
    (hw : drawEvent ndebug v = .ok w) : Consistent w := by
  unfold drawEvent at hw
  cases hd : drainPhase ndebug v with
  | error e => rw [hd] at hw; cases hw
  | ok w1 =>
    rw [hd] at hw
    injection hw with hw
    have h1 := drainPhase_consistent ndebug h hd
    rw [← hw]
    obtain ⟨hb, hi, hr⟩ := h1
    refine ⟨hb, ?_, hr⟩
    rw [log_capacity, log_calls, invoked_append]
    simpa [invoked] using hi

end Visualizer

/-- Every reachable state satisfies the invariant. -/
theorem reachable_consistent {v : Visualizer} (h : Reachable v) : Consistent v := by
  induction h with
  | new windowSize => exact consistent_new windowSize
  | keyPress handled k _ ih =>
    cases handled
    · exact consistent_congr rfl rfl rfl rfl rfl rfl ih
    · exact ih
  | keyRelease handled k _ ih =>
    cases handled
    · exact consistent_congr rfl rfl rfl rfl rfl rfl ih
    · exact ih
  | viewport size _ ih => exact consistent_congr rfl rfl rfl rfl rfl rfl ih
  | renderParticles cmd hc _ ih =>
    obtain ⟨hb, hi, hr⟩ := ih
    refine ⟨hb, hi, ?_⟩
    intro c hcm
    simp only [Visualizer.renderParticles, List.mem_append, List.mem_singleton] at hcm
    rcases hcm with hcm | hcm
    · exact hr c hcm
    · rw [hcm]; exact hc
  | frameStart _ ih => exact Visualizer.frameStart_consistent ih
  | closure ndebug _ hq hw ih =>
    exact Visualizer.consistent_after_closure ndebug ih
      (ih.2.2 _ (by rw [hq]; exact List.mem_cons_self _ _)) hw
  | drawEvent ndebug _ hw ih => exact Visualizer.drawEvent_consistent ndebug ih hw


/-! ## Capacity, size assertions and registration (C5, C9, C10) -/

namespace Visualizer

theorem drawLambda_capacity (ndebug : Bool) (cmd : DrawCmd) (v : Visualizer) :
    (finalState (drawLambda ndebug cmd v)).capacity = (growStep cmd.count v).capacity := by
  obtain ⟨cs, hf, _⟩ := drawLambda_cases ndebug cmd v
  rw [hf, log_capacity]

theorem drain_capacity_le (ndebug : Bool) :
    ∀ (q : List DrawCmd) (v w : Visualizer), Consistent v → (∀ cmd ∈ q, InRange cmd.count) →
      drain ndebug q v = .ok w → v.capacity ≤ w.capacity := by
  intro q
  induction q with
  | nil =>
    intro v w _ _ hw
    simp only [drain] at hw
    injection hw with hw
    rw [hw]
  | cons cmd q ih =>
    intro v w h hr hw
    simp only [drain] at hw
    cases hd : drawLambda ndebug cmd (v.log [.invoke cmd]) with
    | error e => rw [hd] at hw; cases hw
    | ok w1 =>
      rw [hd] at hw
      have hc := hr cmd (List.mem_cons_self _ _)
      have hcons := consistent_after_closure ndebug h hc hd
      have hstep := ih _ w hcons (fun c hcm => hr c (List.mem_cons_of_mem _ hcm)) hw
      have hb0 : BufInv (v.log [.invoke cmd]) v.capacity := h.1
      obtain ⟨_, _, _, hbw⟩ := drawLambda_ok_inv ndebug hb0 hc hd
      have hcap : w1.capacity = max v.capacity cmd.count.toNat := bufInv_capacity hbw
      have hcap' : ({ w1 with drawQueue := w1.drawQueue.tail } : Visualizer).capacity
          = w1.capacity := rfl
      rw [hcap', hcap] at hstep
      exact le_trans (le_max_left _ _) hstep

theorem drawEvent_capacity_le (ndebug : Bool) {v w : Visualizer} (h : Consistent v)
    (hw : drawEvent ndebug v = .ok w) : v.capacity ≤ w.capacity := by
  unfold drawEvent at hw
  cases hd : drainPhase ndebug v with
  | error e => rw [hd] at hw; cases hw
  | ok w1 =>
    rw [hd] at hw
    injection hw with hw
    have hs := frameStart_consistent h
    have h1 := drain_capacity_le ndebug _ _ w1 hs hs.2.2 hd
    have hcap : (v.handleKeyboard.log [.clear]).capacity = v.capacity := by
      simp [capacity, (handleKeyboard_frame v).2.2.1]
    rw [← hw, log_capacity]
    omega

end Visualizer

/-- C5: in every reachable state and for every draw request with a count in range, the grow
step of the closure does not lower the capacity and leaves at least `count * sizeof(Mat3x3f)`
bytes in the transform buffer and `count * sizeof(Vec4f)` bytes in the colour buffer; the
closure ends, drawn or failed, at the capacity its grow step set, and a frame that completes
does not lower the capacity. -/
theorem C5_capacity_never_decreases (ndebug : Bool) (v : Visualizer) (cmd : DrawCmd)
    (hv : Reachable v) (hc : InRange cmd.count) :
    v.capacity ≤ (v.growStep cmd.count).capacity ∧
    sizeofMat3x3f * cmd.count.toNat ≤ (v.growStep cmd.count).transformBuffer ∧
    sizeofVec4f * cmd.count.toNat ≤ (v.growStep cmd.count).colorBuffer ∧
    (finalState (v.drawLambda ndebug cmd)).capacity = (v.growStep cmd.count).capacity ∧
    (∀ w, v.drawEvent ndebug = .ok w → v.capacity ≤ w.capacity) := by
  have hcons := reachable_consistent hv
  have hb := Visualizer.growStep_bufInv hcons.1 hc
  have hcap := bufInv_capacity hb
  obtain ⟨_, ht, hcb, _, _⟩ := hb
  refine ⟨?_, ?_, ?_, Visualizer.drawLambda_capacity ndebug cmd v, fun w hw =>
    Visualizer.drawEvent_capacity_le ndebug hcons hw⟩
  · rw [hcap]; exact le_max_left _ _
  · rw [ht]; exact Nat.mul_le_mul_left _ (le_max_right _ _)
  · rw [hcb]; exact Nat.mul_le_mul_left _ (le_max_right _ _)

/-- C5 on a fresh renderer and a request for 100 particles. -/
theorem C5_capacity_never_decreases_witness :
    (Visualizer.new (800, 600)).capacity
        ≤ ((Visualizer.new (800, 600)).growStep (DrawCmd.ofCount 100).count).capacity ∧
    sizeofMat3x3f * (DrawCmd.ofCount 100).count.toNat
        ≤ ((Visualizer.new (800, 600)).growStep (DrawCmd.ofCount 100).count).transformBuffer :=
  have h := C5_capacity_never_decreases false (Visualizer.new (800, 600)) (DrawCmd.ofCount 100)
    (Reachable.new (800, 600)) (by decide)
  ⟨h.1, h.2.1⟩

/-- C9: in every reachable state of capacity `c` and for every draw request with a count `n`
in range, the map step succeeds whenever the buffers are registered or `n` is positive, and
on the sizes it reports both size assertions hold if and only if `c <= n`, and both fail when
`n < c`; with the assertions compiled in, the closure ends in a failed assertion if and only
if `n < c`, and with the assertions compiled out it never does. -/
theorem C9_size_assertions (v : Visualizer) (cmd : DrawCmd) (hv : Reachable v)
    (hc : InRange cmd.count) :
    ((0 < v.capacity ∨ 0 < cmd.count) →
      ∃ w dColorSize dTransformSize,
        (v.growStep cmd.count).mapStep = .ok (w, dColorSize, dTransformSize) ∧
        dColorSize = (v.growStep cmd.count).colorBuffer ∧
        dTransformSize = (v.growStep cmd.count).transformBuffer ∧
        ((Visualizer.colorSizeAssert cmd.count dColorSize = true ∧
            Visualizer.transformSizeAssert cmd.count dTransformSize = true)
          ↔ (v.capacity : Int) ≤ cmd.count) ∧
        (cmd.count < (v.capacity : Int) →
          Visualizer.colorSizeAssert cmd.count dColorSize = false ∧
            Visualizer.transformSizeAssert cmd.count dTransformSize = false)) ∧
    (faultOf (v.drawLambda false cmd) = some .assertionFailed ↔ cmd.count < (v.capacity : Int)) ∧
    faultOf (v.drawLambda true cmd) ≠ some .assertionFailed := by
  have hcons := reachable_consistent hv
  have hb0 := hcons.1
  have hb := Visualizer.growStep_bufInv hb0 hc
  have hn : ((cmd.count.toNat : Nat) : Int) = cmd.count := Int.toNat_of_nonneg hc.1
  refine ⟨fun hpos => ?_, ?_, ?_⟩
  · have hp : 0 < max v.capacity cmd.count.toNat := by
      rcases hpos with h | h
      · exact lt_of_lt_of_le h (le_max_left _ _)
      · exact lt_of_lt_of_le (by omega) (le_max_right _ _)
    refine ⟨_, _, _, Visualizer.mapStep_of_pos hb hp, hb.2.2.1.symm, hb.2.1.symm, ?_, ?_⟩
    · rw [Visualizer.colorSizeAssert_iff hc, Visualizer.transformSizeAssert_iff hc]
      constructor
      · rintro ⟨h1, _⟩
        have : v.capacity ≤ cmd.count.toNat := by
          rw [← h1]; exact le_max_left _ _
        omega
      · intro h
        have : v.capacity ≤ cmd.count.toNat := by omega
        exact ⟨Nat.max_eq_right this, Nat.max_eq_right this⟩
    · intro hlt
      have hlt' : cmd.count.toNat < v.capacity := by omega
      have hne : ¬ max v.capacity cmd.count.toNat = cmd.count.toNat := by
        rw [Nat.max_eq_left (Nat.le_of_lt hlt')]; omega
      constructor
      · rw [Bool.eq_false_iff]
        exact fun hcon => hne ((Visualizer.colorSizeAssert_iff hc _).1 hcon)
      · rw [Bool.eq_false_iff]
        exact fun hcon => hne ((Visualizer.transformSizeAssert_iff hc _).1 hcon)
  · constructor
    · intro hf
      by_contra hcon
      have hle : v.capacity ≤ cmd.count.toNat := by omega
      rcases Nat.eq_zero_or_pos (max v.capacity cmd.count.toNat) with h0 | h0
      · have hk : v.capacity = 0 := by omega
        have hz : cmd.count = 0 := by omega
        rw [hk] at hb0
        rw [Visualizer.drawLambda_unregistered false hb0 hz] at hf
        simp [faultOf] at hf
      · rw [Visualizer.drawLambda_ok false hb0 hc h0 (Or.inr hle)] at hf
        simp [faultOf] at hf
    · intro hlt
      have hlt' : cmd.count.toNat < v.capacity := by omega
      rw [Visualizer.drawLambda_assertionFailed hb0 hc hlt']
      rfl
  · rcases Nat.eq_zero_or_pos (max v.capacity cmd.count.toNat) with h0 | h0
    · have hk : v.capacity = 0 := by omega
      have hz : cmd.count = 0 := by omega
      rw [hk] at hb0
      rw [Visualizer.drawLambda_unregistered true hb0 hz]
      simp [faultOf]
    · rw [Visualizer.drawLambda_ok true hb0 hc h0 (Or.inl rfl)]
      simp [faultOf]

/-- C9 on a fresh renderer and a request for 100 particles: no assertion fails. -/
theorem C9_size_assertions_witness :
    faultOf ((Visualizer.new (800, 600)).drawLambda true (DrawCmd.ofCount 100))
      ≠ some .assertionFailed :=
  (C9_size_assertions (Visualizer.new (800, 600)) (DrawCmd.ofCount 100)
    (Reachable.new (800, 600)) (by decide)).2.2

namespace Visualizer

@[simp] theorem panStep_currentZoom (k : Key) (d : ℚ × ℚ) (v : Visualizer) :
    (panStep k d v).currentZoom = v.currentZoom := by
  unfold panStep; split_ifs <;> rfl

@[simp] theorem panStep_pressedKeys (k : Key) (d : ℚ × ℚ) (v : Visualizer) :
    (panStep k d v).pressedKeys = v.pressedKeys := by
  unfold panStep; split_ifs <;> rfl

theorem panStep_cameraPosition (k : Key) (d : ℚ × ℚ) (v : Visualizer) :
    (panStep k d v).cameraPosition =
      if k ∈ v.pressedKeys then (v.cameraPosition.1 + d.1, v.cameraPosition.2 + d.2)
      else v.cameraPosition := by
  unfold panStep; split_ifs <;> rfl

theorem zoomStep_currentZoom (k : Key) (f : ℚ) (v : Visualizer) :
    (zoomStep k f v).currentZoom = if k ∈ v.pressedKeys then v.currentZoom * f
      else v.currentZoom := by
  unfold zoomStep; split_ifs <;> rfl

@[simp] theorem zoomStep_pressedKeys (k : Key) (f : ℚ) (v : Visualizer) :
    (zoomStep k f v).pressedKeys = v.pressedKeys := by
  unfold zoomStep; split_ifs <;> rfl

@[simp] theorem zoomStep_cameraPosition (k : Key) (f : ℚ) (v : Visualizer) :
    (zoomStep k f v).cameraPosition = v.cameraPosition := by
  unfold zoomStep; split_ifs <;> rfl

@[simp] theorem exitStep_currentZoom (v : Visualizer) :
    (exitStep v).currentZoom = v.currentZoom := by
  unfold exitStep; split_ifs <;> rfl

@[simp] theorem exitStep_pressedKeys (v : Visualizer) :
    (exitStep v).pressedKeys = v.pressedKeys := by
  unfold exitStep; split_ifs <;> rfl

@[simp] theorem exitStep_cameraPosition (v : Visualizer) :
    (exitStep v).cameraPosition = v.cameraPosition := by
  unfold exitStep; split_ifs <;> rfl

@[simp] theorem updateProjectionMatrix_currentZoom (v : Visualizer) :
    v.updateProjectionMatrix.currentZoom = v.currentZoom := rfl

@[simp] theorem updateProjectionMatrix_cameraPosition (v : Visualizer) :
    v.updateProjectionMatrix.cameraPosition = v.cameraPosition := rfl

/-- One call of `handleKeyboard` with `Q` held and `E` not held multiplies the zoom by
`1 + CAMERA_ZOOM_SPEED`. -/
theorem handleKeyboard_zoom_in (v : Visualizer) (hQ : Key.Q ∈ v.pressedKeys)
    (hE : Key.E ∉ v.pressedKeys) :
    v.handleKeyboard.currentZoom = v.currentZoom * (1 + CAMERA_ZOOM_SPEED) := by
  rw [handleKeyboard_eq]
  simp [zoomStep_currentZoom, hQ, hE]

theorem iterate_handleKeyboard_pressedKeys (v : Visualizer) (N : Nat) :
    (handleKeyboard^[N] v).pressedKeys = v.pressedKeys := by
  induction N with
  | zero => rfl
  | succ n ih =>
    rw [Function.iterate_succ_apply', (handleKeyboard_frame _).2.2.2.2.2.2.1, ih]

theorem iterate_handleKeyboard_zoom_in (v : Visualizer) (N : Nat) (hQ : Key.Q ∈ v.pressedKeys)
    (hE : Key.E ∉ v.pressedKeys) :
    (handleKeyboard^[N] v).currentZoom = v.currentZoom * (1 + CAMERA_ZOOM_SPEED) ^ N := by
  induction N with
  | zero => simp
  | succ n ih =>
    have hk := iterate_handleKeyboard_pressedKeys v n
    rw [Function.iterate_succ_apply',
      handleKeyboard_zoom_in _ (by rw [hk]; exact hQ) (by rw [hk]; exact hE), ih, pow_succ,
      mul_assoc]

end Visualizer

/-- Compound growth exceeds linear growth from the second step on. -/
theorem one_add_mul_lt_one_add_pow (s : ℚ) (hs : 0 < s) (N : Nat) (hN : 2 ≤ N) :
    1 + (N : ℚ) * s < (1 + s) ^ N := by
  induction N, hN using Nat.le_induction with
  | base =>
    have : (1 + s) ^ 2 = 1 + 2 * s + s * s := by ring
    rw [this]
    push_cast
    nlinarith [mul_pos hs hs]
  | succ n hn ih =>
    have hn0 : (0 : ℚ) ≤ (n : ℚ) := Nat.cast_nonneg n
    have h1 : (1 + (n : ℚ) * s) * (1 + s) < (1 + s) ^ n * (1 + s) :=
      mul_lt_mul_of_pos_right ih (by linarith)
    rw [pow_succ]
    push_cast
    nlinarith [mul_nonneg hn0 (mul_pos hs hs).le]

/-- C7: over exact arithmetic, for every starting zoom and every `N`, running `handleKeyboard`
`N` times with `Q` held and `E` not held leaves `currentZoom` equal to the starting zoom times
`(1 + CAMERA_ZOOM_SPEED) ^ N`, which differs from the additive value
`z * (1 + N * CAMERA_ZOOM_SPEED)` for every `N >= 2` and `z != 0`. -/
theorem C7_zoom_compounds (v : Visualizer) (N : Nat) (hQ : Key.Q ∈ v.pressedKeys)
    (hE : Key.E ∉ v.pressedKeys) :
    (Visualizer.handleKeyboard^[N] v).currentZoom
      = v.currentZoom * (1 + CAMERA_ZOOM_SPEED) ^ N ∧
    (2 ≤ N → v.currentZoom ≠ 0 →
      v.currentZoom * (1 + CAMERA_ZOOM_SPEED) ^ N
        ≠ v.currentZoom * (1 + (N : ℚ) * CAMERA_ZOOM_SPEED)) := by
  refine ⟨Visualizer.iterate_handleKeyboard_zoom_in v N hQ hE, fun hN hz hcon => ?_⟩
  have hlt := one_add_mul_lt_one_add_pow CAMERA_ZOOM_SPEED (by norm_num [CAMERA_ZOOM_SPEED]) N hN
  have := mul_left_cancel₀ hz hcon
  linarith

/-- C7 for three ticks on a fresh renderer after `Q` was pressed. -/
theorem C7_zoom_compounds_witness :
    (Visualizer.handleKeyboard^[3] ((Visualizer.new (800, 600)).keyPressEvent false .Q)).currentZoom
      = ((Visualizer.new (800, 600)).keyPressEvent false .Q).currentZoom
          * (1 + CAMERA_ZOOM_SPEED) ^ 3 :=
  (C7_zoom_compounds ((Visualizer.new (800, 600)).keyPressEvent false .Q) 3
    (by decide) (by decide)).1


namespace Visualizer

theorem two_div_two_div (x : ℚ) : 2 / (2 / x) = x := by
  by_cases hx : x = 0
  · simp [hx]
  · field_simp

/-- With the projection up to date, the projection size is the window size times the zoom. -/
theorem projectionSize_of_upToDate (v : Visualizer)
    (hup : v.projectionMatrix = v.updateProjectionMatrix.projectionMatrix) :
    v.projectionSize
      = ((v.windowSize.1 : ℚ) * v.currentZoom, (v.windowSize.2 : ℚ) * v.currentZoom) := by
  unfold projectionSize
  rw [hup]
  simp only [updateProjectionMatrix, two_div_two_div]

theorem atZoom_cameraPanSpeed (v : Visualizer) (z : ℚ) :
    (v.atZoom z).cameraPanSpeed
      = CAMERA_PAN_SPEED * min ((v.windowSize.1 : ℚ) * z) ((v.windowSize.2 : ℚ) * z) := by
  unfold cameraPanSpeed
  rw [projectionSize_of_upToDate (v.atZoom z) rfl]
  rfl

/-- The camera after `handleKeyboard` when exactly one directional key is held. -/
theorem handleKeyboard_cameraPosition (v : Visualizer) (k : Key)
    (hdir : k ∈ [Key.A, Key.D, Key.W, Key.S]) (hk : k ∈ v.pressedKeys)
    (hone : ∀ k' ∈ [Key.A, Key.D, Key.W, Key.S], k' ∈ v.pressedKeys → k' = k) :
    v.handleKeyboard.cameraPosition =
      (v.cameraPosition.1 + v.cameraPanSpeed * (direction k).1,
        v.cameraPosition.2 + v.cameraPanSpeed * (direction k).2) := by
  have hA : k ≠ .A → Key.A ∉ v.pressedKeys := fun hne hm => hne (hone _ (by simp) hm).symm
  have hD : k ≠ .D → Key.D ∉ v.pressedKeys := fun hne hm => hne (hone _ (by simp) hm).symm
  have hW : k ≠ .W → Key.W ∉ v.pressedKeys := fun hne hm => hne (hone _ (by simp) hm).symm
  have hS : k ≠ .S → Key.S ∉ v.pressedKeys := fun hne hm => hne (hone _ (by simp) hm).symm
  rw [handleKeyboard_eq]
  simp only [List.mem_cons, List.mem_singleton, List.not_mem_nil, or_false] at hdir
  rcases hdir with rfl | rfl | rfl | rfl
  · simp [panStep_cameraPosition, hk, hD (by decide), hW (by decide), hS (by decide), direction]
  · simp [panStep_cameraPosition, hk, hA (by decide), hW (by decide), hS (by decide), direction]
  · simp [panStep_cameraPosition, hk, hA (by decide), hD (by decide), hS (by decide), direction]
  · simp [panStep_cameraPosition, hk, hA (by decide), hD (by decide), hW (by decide), direction]

/-- The drain loop, completed or failed, leaves the camera where the keyboard put it. -/
theorem drain_cameraPosition (ndebug : Bool) :
    ∀ (q : List DrawCmd) (v : Visualizer),
      (finalState (drain ndebug q v)).cameraPosition = v.cameraPosition := by
  intro q
  induction q with
  | nil => intro v; rfl
  | cons cmd q ih =>
    intro v
    have hf := (drawLambda_frame ndebug cmd (v.log [.invoke cmd])).2.2.2.1
    simp only [drain]
    cases hd : drawLambda ndebug cmd (v.log [.invoke cmd]) with
    | error e =>
      rw [hd] at hf
      exact hf
    | ok w =>
      rw [hd] at hf
      simp only [finalState] at hf
      rw [ih]
      exact hf

theorem drainPhase_cameraPosition (ndebug : Bool) (v : Visualizer) :
    (finalState (drainPhase ndebug v)).cameraPosition = v.handleKeyboard.cameraPosition := by
  simp only [drainPhase]
  rw [drain_cameraPosition, log_cameraPosition]

theorem drawEvent_cameraPosition (ndebug : Bool) (v : Visualizer) :
    (finalState (drawEvent ndebug v)).cameraPosition = v.handleKeyboard.cameraPosition := by
  have h := drainPhase_cameraPosition ndebug v
  simp only [drawEvent]
  cases hd : drainPhase ndebug v with
  | error e =>
    rw [hd] at h
    exact h
  | ok w =>
    rw [hd] at h
    exact h

end Visualizer

/-- C8, as stated, fails: in an 800 by 600 window, doubling the zoom factor from 1 to 2 does
not halve the pan step of a tick (it goes from 9.6 to 19.2 world units). -/
theorem C8_counterexample :
    ¬ (((Visualizer.new (800, 600)).atZoom (2 * 1)).cameraPanSpeed
        = ((Visualizer.new (800, 600)).atZoom 1).cameraPanSpeed / 2) := by
  rw [Visualizer.atZoom_cameraPanSpeed, Visualizer.atZoom_cameraPanSpeed]
  norm_num [Visualizer.new, CAMERA_PAN_SPEED]

/-- C8, amended: over exact arithmetic, with the projection matrix up to date (projection size
= window size times `currentZoom`), one frame tick with one directional key held translates
the camera by `CAMERA_PAN_SPEED * min(projectionSize.x, projectionSize.y)` along the
direction of that key, and for every window size and zoom `z`, doubling the zoom factor to
`2 z` doubles that per-tick translation. -/
theorem C8_pan_doubles_with_zoom (ndebug : Bool) (v : Visualizer) (k : Key)
    (hup : v.projectionMatrix = v.updateProjectionMatrix.projectionMatrix)
    (hdir : k ∈ [Key.A, Key.D, Key.W, Key.S]) (hk : k ∈ v.pressedKeys)
    (hone : ∀ k' ∈ [Key.A, Key.D, Key.W, Key.S], k' ∈ v.pressedKeys → k' = k) :
    v.cameraPanSpeed
      = CAMERA_PAN_SPEED * min v.projectionSize.1 v.projectionSize.2 ∧
    v.projectionSize
      = ((v.windowSize.1 : ℚ) * v.currentZoom, (v.windowSize.2 : ℚ) * v.currentZoom) ∧
    (finalState (v.drawEvent ndebug)).cameraPosition =
      (v.cameraPosition.1 + v.cameraPanSpeed * (direction k).1,
        v.cameraPosition.2 + v.cameraPanSpeed * (direction k).2) ∧
    ∀ z : ℚ, (v.atZoom (2 * z)).cameraPanSpeed = 2 * (v.atZoom z).cameraPanSpeed := by
  refine ⟨rfl, Visualizer.projectionSize_of_upToDate v hup, ?_, fun z => ?_⟩
  · rw [Visualizer.drawEvent_cameraPosition]
    exact Visualizer.handleKeyboard_cameraPosition v k hdir hk hone
  · rw [Visualizer.atZoom_cameraPanSpeed, Visualizer.atZoom_cameraPanSpeed]
    have h2 : ∀ a b : ℚ, min (2 * a) (2 * b) = 2 * min a b := by
      intro a b
      rcases le_total a b with hab | hab
      · rw [min_eq_left hab, min_eq_left (by linarith)]
      · rw [min_eq_right hab, min_eq_right (by linarith)]
    rw [show (v.windowSize.1 : ℚ) * (2 * z) = 2 * ((v.windowSize.1 : ℚ) * z) by ring,
      show (v.windowSize.2 : ℚ) * (2 * z) = 2 * ((v.windowSize.2 : ℚ) * z) by ring, h2]
    ring

/-- C8, amended, on an 800 by 600 window at zoom 1 with `D` held: the pan step at zoom 2 is
twice the pan step at zoom 1. -/
theorem C8_pan_doubles_with_zoom_witness :
    ((((Visualizer.new (800, 600)).atZoom 1).keyPressEvent false .D).atZoom (2 * 1)).cameraPanSpeed
      = 2 * ((((Visualizer.new (800, 600)).atZoom 1).keyPressEvent false .D).atZoom 1).cameraPanSpeed :=
  (C8_pan_doubles_with_zoom false (((Visualizer.new (800, 600)).atZoom 1).keyPressEvent false .D)
    .D rfl (by decide) (by decide) (by decide)).2.2.2 1


/-! ## The drain loop (C6) -/

namespace Visualizer

/-- A drain that completes has invoked every queued closure once, in queue order, and has
emptied the queue. -/
theorem drain_ok_invoked (ndebug : Bool) :
    ∀ (q : List DrawCmd) (v w : Visualizer), v.drawQueue = q → drain ndebug q v = .ok w →
      invoked w.calls = invoked v.calls ++ q ∧ w.drawQueue = [] := by
  intro q
  induction q with
  | nil =>
    intro v w hq hw
    simp only [drain] at hw
    injection hw with hw
    rw [← hw]
    exact ⟨by simp, hq⟩
  | cons cmd q ih =>
    intro v w hq hw
    simp only [drain] at hw
    obtain ⟨hfq, hfi, _⟩ := drawLambda_frame ndebug cmd (v.log [.invoke cmd])
    cases hd : drawLambda ndebug cmd (v.log [.invoke cmd]) with
    | error e => rw [hd] at hw; cases hw
    | ok w1 =>
      rw [hd] at hw hfq hfi
      simp only [finalState, log_drawQueue, log_calls, invoked_append] at hfq hfi
      have hq1 : ({ w1 with drawQueue := w1.drawQueue.tail } : Visualizer).drawQueue = q := by
        show w1.drawQueue.tail = q
        rw [hfq, hq]; rfl
      obtain ⟨hi, he⟩ := ih _ w hq1 hw
      refine ⟨?_, he⟩
      rw [hi]
      show invoked w1.calls ++ q = _
      rw [hfi]
      simp [invoked]

/-- A drain that fails has invoked the closures up to and including the failing one, once
each and in queue order; the failing closure is still at the front of the queue and the
closures behind it were not invoked. -/
theorem drain_error_invoked (ndebug : Bool) :
    ∀ (q : List DrawCmd) (v : Visualizer) (e : Crash), v.drawQueue = q →
      drain ndebug q v = .error e →
      ∃ done cmd rest, q = done ++ cmd :: rest ∧
        invoked e.state.calls = invoked v.calls ++ done ++ [cmd] ∧
        e.state.drawQueue = cmd :: rest := by
  intro q
  induction q with
  | nil =>
    intro v e _ hw
    simp only [drain] at hw
    cases hw
  | cons cmd q ih =>
    intro v e hq hw
    simp only [drain] at hw
    obtain ⟨hfq, hfi, _⟩ := drawLambda_frame ndebug cmd (v.log [.invoke cmd])
    cases hd : drawLambda ndebug cmd (v.log [.invoke cmd]) with
    | error e1 =>
      rw [hd] at hw hfq hfi
      injection hw with hw
      simp only [finalState, log_drawQueue, log_calls, invoked_append] at hfq hfi
      refine ⟨[], cmd, q, rfl, ?_, ?_⟩
      · rw [← hw, hfi]; simp [invoked]
      · rw [← hw, hfq, hq]
    | ok w1 =>
      rw [hd] at hw hfq hfi
      simp only [finalState, log_drawQueue, log_calls, invoked_append] at hfq hfi
      have hq1 : ({ w1 with drawQueue := w1.drawQueue.tail } : Visualizer).drawQueue = q := by
        show w1.drawQueue.tail = q
        rw [hfq, hq]; rfl
      obtain ⟨done, c, rest, hsplit, hi, he⟩ := ih _ e hq1 hw
      refine ⟨cmd :: done, c, rest, by rw [hsplit]; rfl, ?_, he⟩
      rw [hi]
      show invoked w1.calls ++ done ++ [c] = _
      rw [hfi]
      simp [invoked]

/-- A drain does not fail when every queued count is positive and either the assertions are
compiled out or the queued counts do not decrease, starting at the capacity. -/
theorem drain_no_fault (ndebug : Bool) :
    ∀ (q : List DrawCmd) (v : Visualizer) (k : Nat), BufInv v k →
      (∀ cmd ∈ q, InRange cmd.count ∧ 1 ≤ cmd.count) →
      (ndebug = true ∨ List.Chain (fun a b => a ≤ b) (k : Int) (q.map DrawCmd.count)) →
      ∃ w, drain ndebug q v = .ok w := by
  intro q
  induction q with
  | nil => intro v k _ _ _; exact ⟨v, rfl⟩
  | cons cmd q ih =>
    intro v k hb hr hmono
    obtain ⟨hc, h1⟩ := hr cmd (List.mem_cons_self _ _)
    have hb0 : BufInv (v.log [.invoke cmd]) k := hb
    have hn : ((cmd.count.toNat : Nat) : Int) = cmd.count := Int.toNat_of_nonneg hc.1
    have hpos : 0 < max k cmd.count.toNat :=
      lt_of_lt_of_le (by omega : 0 < cmd.count.toNat) (le_max_right _ _)
    have hpass : ndebug = true ∨ k ≤ cmd.count.toNat := by
      rcases hmono with h | h
      · exact Or.inl h
      · right
        simp only [List.map_cons, List.chain_cons] at h
        omega
    have hok := drawLambda_ok ndebug hb0 hc hpos hpass
    simp only [drain, hok]
    apply ih _ (max k cmd.count.toNat)
    · exact growStep_bufInv hb0 hc
    · exact fun c hcm => hr c (List.mem_cons_of_mem _ hcm)
    · rcases hmono with h | h
      · exact Or.inl h
      · right
        simp only [List.map_cons, List.chain_cons] at h
        have hmax : ((max k cmd.count.toNat : Nat) : Int) = cmd.count := by
          rw [Nat.max_eq_right (by omega)]; exact hn
        rw [hmax]
        exact h.2

end Visualizer

/-- In a reachable state whose queued counts are all positive, the drain completes when the
assertions are compiled out or the queued counts do not decrease, starting at the capacity. -/
theorem drainPhase_no_fault (ndebug : Bool) (v : Visualizer) (hv : Reachable v)
    (hpos : ∀ c ∈ v.drawQueue, 1 ≤ c.count)
    (hmono : ndebug = true ∨
      List.Chain (fun a b => a ≤ b) (v.capacity : Int) (v.drawQueue.map DrawCmd.count)) :
    ∃ w, v.drainPhase ndebug = .ok w := by
  obtain ⟨hq, _, ht, _, _, _, _, _⟩ := Visualizer.handleKeyboard_frame v
  have hq0 : (v.handleKeyboard.log [.clear]).drawQueue = v.drawQueue := by
    rw [Visualizer.log_drawQueue]; exact hq
  have hcons := Visualizer.frameStart_consistent (reachable_consistent hv)
  have hcap : (v.handleKeyboard.log [.clear]).capacity = v.capacity := by
    simp [Visualizer.capacity, ht]
  simp only [Visualizer.drainPhase]
  apply Visualizer.drain_no_fault ndebug _ _ v.capacity
  · rw [← hcap]; exact hcons.1
  · intro c hc
    rw [hq0] at hc
    exact ⟨(reachable_consistent hv).2.2 c hc, hpos c hc⟩
  · rw [hq0]; exact hmono

/-- C6: for every draw queue content at the start of a frame tick, a `drawEvent` that reaches
the overlay phase has invoked each queued closure exactly once, in the order in which
`renderParticles` enqueued them, and the queue is empty at that point; the only way not to
reach the overlay phase is a closure that ends the run with a fatal error, and then the
closures up to and including that one were invoked once each, in queue order, and no other;
`renderParticles` itself only appends one closure to the queue and changes no buffer,
registration or camera state. -/
theorem C6_drain_fifo (ndebug : Bool) (v : Visualizer) (cmd : DrawCmd) :
    (∀ w, v.drainPhase ndebug = .ok w →
      invoked w.calls = invoked v.calls ++ v.drawQueue ∧ w.drawQueue = []) ∧
    (∀ e, v.drainPhase ndebug = .error e →
      ∃ done c rest, v.drawQueue = done ++ c :: rest ∧
        invoked e.state.calls = invoked v.calls ++ done ++ [c] ∧
        e.state.drawQueue = c :: rest) ∧
    ((v.renderParticles cmd).drawQueue = v.drawQueue ++ [cmd] ∧
      (v.renderParticles cmd).calls = v.calls ∧
      (v.renderParticles cmd).transformBuffer = v.transformBuffer ∧
      (v.renderParticles cmd).colorBuffer = v.colorBuffer ∧
      (v.renderParticles cmd).transformResource = v.transformResource ∧
      (v.renderParticles cmd).colorResource = v.colorResource ∧
      (v.renderParticles cmd).cameraPosition = v.cameraPosition ∧
      (v.renderParticles cmd).projectionMatrix = v.projectionMatrix ∧
      (v.renderParticles cmd).currentZoom = v.currentZoom) := by
  obtain ⟨hq, hcalls, _, _, _, _, _, _⟩ := Visualizer.handleKeyboard_frame v
  have hq0 : (v.handleKeyboard.log [.clear]).drawQueue = v.drawQueue := by
    rw [Visualizer.log_drawQueue]; exact hq
  have hi0 : invoked (v.handleKeyboard.log [.clear]).calls = invoked v.calls := by
    rw [Visualizer.log_calls, invoked_append, hcalls]
    simp [invoked]
  refine ⟨fun w hw => ?_, fun e hw => ?_, ⟨rfl, rfl, rfl, rfl, rfl, rfl, rfl, rfl, rfl⟩⟩
  · simp only [Visualizer.drainPhase] at hw
    obtain ⟨hi, he⟩ := Visualizer.drain_ok_invoked ndebug _ _ w rfl hw
    rw [hi0, hq0] at hi
    exact ⟨hi, he⟩
  · simp only [Visualizer.drainPhase] at hw
    obtain ⟨done, c, rest, hs, hi, he⟩ := Visualizer.drain_error_invoked ndebug _ _ e rfl hw
    rw [hq0] at hs
    rw [hi0] at hi
    exact ⟨done, c, rest, hs, hi, he⟩

/-- C6 on a fresh renderer with closures for 100 and 200 particles queued, assertions compiled
in: the frame reaches the overlay phase, both closures were invoked in queue order and the
queue is empty. -/
theorem C6_drain_fifo_witness :
    ∃ w, (((Visualizer.new (800, 600)).renderParticles (DrawCmd.ofCount 100)).renderParticles
        (DrawCmd.ofCount 200)).drainPhase false = .ok w ∧
      invoked w.calls = [DrawCmd.ofCount 100, DrawCmd.ofCount 200] ∧ w.drawQueue = [] := by
  obtain ⟨w, hw⟩ := drainPhase_no_fault false
    (((Visualizer.new (800, 600)).renderParticles (DrawCmd.ofCount 100)).renderParticles
      (DrawCmd.ofCount 200))
    (Reachable.renderParticles _ (by decide)
      (Reachable.renderParticles _ (by decide) (Reachable.new (800, 600))))
    (by decide)
    (Or.inr (by simp [Visualizer.renderParticles, Visualizer.new, Visualizer.capacity,
      DrawCmd.ofCount]))
  exact ⟨w, hw, (C6_drain_fifo false
    (((Visualizer.new (800, 600)).renderParticles (DrawCmd.ofCount 100)).renderParticles
      (DrawCmd.ofCount 200)) (DrawCmd.ofCount 0)).1 w hw⟩

/-! ## Failing inputs (C1, C2) -/

/-- C1 at a failing input: on a fresh renderer, a frame that drains a request for 0 particles
fails on the map call, with or without assertions, so the frame for the following request for
5 particles is never run; the capacity at the failure is 0. -/
theorem C1_zero_count_frame_fails :
    faultOf (Visualizer.runFrames true [DrawCmd.ofCount 0, DrawCmd.ofCount 5]
      (Visualizer.new (800, 600))) = some .cudaError ∧
    faultOf (Visualizer.runFrames false [DrawCmd.ofCount 0, DrawCmd.ofCount 5]
      (Visualizer.new (800, 600))) = some .cudaError ∧
    (finalState (Visualizer.runFrames true [DrawCmd.ofCount 0, DrawCmd.ofCount 5]
      (Visualizer.new (800, 600)))).capacity = 0 ∧
    invoked (finalState (Visualizer.runFrames true [DrawCmd.ofCount 0, DrawCmd.ofCount 5]
      (Visualizer.new (800, 600)))).calls = [DrawCmd.ofCount 0] := by
  refine ⟨by rfl, by rfl, by decide, by rfl⟩

/-- C2 at a failing input: on a fresh renderer, with the assertions compiled in, a frame for
100 particles followed by a frame for 50 ends in a failed assertion; the capacity is still 100
and no draw with instance count 50 was issued. -/
theorem C2_smaller_count_fails_assertion :
    faultOf (Visualizer.runFrames false [DrawCmd.ofCount 100, DrawCmd.ofCount 50]
      (Visualizer.new (800, 600))) = some .assertionFailed ∧
    (finalState (Visualizer.runFrames false [DrawCmd.ofCount 100, DrawCmd.ofCount 50]
      (Visualizer.new (800, 600)))).capacity = 100 ∧
    Call.setInstanceCount 50 ∉
      (finalState (Visualizer.runFrames false [DrawCmd.ofCount 100, DrawCmd.ofCount 50]
        (Visualizer.new (800, 600)))).calls := by
  refine ⟨by rfl, by decide, by decide⟩


/-! ## Frames that do not fail -/

namespace Visualizer

/-- One frame for a request of at least one particle and at least the capacity, on a reachable
state with an empty queue: the frame completes, the capacity becomes the count, the queue is
empty again, and when the count equals the capacity the frame makes no unregister,
`setStorage` or register call. -/
theorem drawEvent_nondecreasing (ndebug : Bool) {v : Visualizer} {cmd : DrawCmd}
    (hv : Reachable v) (hq : v.drawQueue = []) (hc : InRange cmd.count) (h1 : 1 ≤ cmd.count)
    (hle : (v.capacity : Int) ≤ cmd.count) :
    ∃ w, (v.renderParticles cmd).drawEvent ndebug = .ok w ∧
      (w.capacity : Int) = cmd.count ∧ w.drawQueue = [] ∧
      ((v.capacity : Int) = cmd.count →
        w.calls = v.calls ++ ([.clear, .invoke cmd] ++ mapCalls v.capacity ++ drawCalls cmd
          ++ [.drawGUI, .swapBuffers])) := by
  have hr : Reachable (v.renderParticles cmd) := Reachable.renderParticles cmd hc hv
  have hcons := frameStart_consistent (reachable_consistent hr)
  obtain ⟨hfq, hfc, hft, _⟩ := handleKeyboard_frame (v.renderParticles cmd)
  have hcap : ((v.renderParticles cmd).handleKeyboard.log [.clear]).capacity = v.capacity := by
    simp only [capacity, log_transformBuffer, hft]; rfl
  have hq0 : ((v.renderParticles cmd).handleKeyboard.log [.clear]).drawQueue = [cmd] := by
    rw [log_drawQueue, hfq]
    simp [renderParticles, hq]
  have hcalls0 : ((v.renderParticles cmd).handleKeyboard.log [.clear]).calls
      = v.calls ++ [.clear] := by
    rw [log_calls, hfc]; rfl
  simp only [drawEvent, drainPhase]
  generalize (v.renderParticles cmd).handleKeyboard.log [.clear] = s0
    at hcons hcap hq0 hcalls0 ⊢
  have hb : BufInv (s0.log [.invoke cmd]) v.capacity := by
    have := bufInv_log hcons.1 [.invoke cmd]
    rw [hcap] at this
    exact this
  have hn : ((cmd.count.toNat : Nat) : Int) = cmd.count := Int.toNat_of_nonneg hc.1
  have hkn : v.capacity ≤ cmd.count.toNat := by omega
  have hmax : max v.capacity cmd.count.toNat = cmd.count.toNat := Nat.max_eq_right hkn
  have hpos : 0 < max v.capacity cmd.count.toNat := by rw [hmax]; omega
  have hok := drawLambda_ok ndebug hb hc hpos (Or.inr hkn)
  have hbw := growStep_bufInv hb hc
  have hex : ∀ w1 : Visualizer,
      w1 = ((growStep cmd.count (s0.log [.invoke cmd])).log
        (mapCalls (max v.capacity cmd.count.toNat))).log (drawCalls cmd) →
      (w1.capacity : Int) = cmd.count ∧ w1.drawQueue.tail = [] ∧
      ((v.capacity : Int) = cmd.count →
        w1.calls ++ [.drawGUI, .swapBuffers] = v.calls ++ ([.clear, .invoke cmd]
          ++ mapCalls v.capacity ++ drawCalls cmd ++ [.drawGUI, .swapBuffers])) := by
    intro w1 hw1
    refine ⟨?_, ?_, ?_⟩
    · rw [hw1, log_capacity, log_capacity, bufInv_capacity hbw, hmax, hn]
    · rw [hw1, log_drawQueue, log_drawQueue, (growStep_frame _ _).1, log_drawQueue, hq0]
      rfl
    · intro heq
      have hkn' : cmd.count.toNat ≤ v.capacity := by omega
      have hg := growStep_of_le hb hc hkn'
      have hmax' : max v.capacity cmd.count.toNat = v.capacity := Nat.max_eq_left hkn'
      rw [hw1, hg, hmax', log_calls, log_calls, log_calls, hcalls0]
      simp
  obtain ⟨e1, e2, e3⟩ := hex _ rfl
  simp only [hq0, drain, hok]
  exact ⟨_, rfl, e1, e2, e3⟩

/-- A closure whose count is at most the capacity of registered buffers, with the assertions
compiled out: nothing grows, and the draw is issued with the count as instance count. -/
theorem drawLambda_reuse_release {v : Visualizer} {cmd : DrawCmd} (hv : Reachable v)
    (hc : InRange cmd.count) (hreg : 0 < v.capacity) (hle : cmd.count ≤ (v.capacity : Int)) :
    drawLambda true cmd v = .ok (v.log (mapCalls v.capacity ++ drawCalls cmd)) := by
  have hb := (reachable_consistent hv).1
  have hkn : cmd.count.toNat ≤ v.capacity := by
    have := hc.1
    omega
  have hmax : max v.capacity cmd.count.toNat = v.capacity := Nat.max_eq_left hkn
  rw [drawLambda_ok true hb hc (by rw [hmax]; exact hreg) (Or.inl rfl),
    growStep_of_le hb hc hkn, hmax, log_log]

/-- Frames for positive counts that do not decrease, starting at the capacity, all complete;
the capacity after the last one is its count. -/
theorem runFrames_nondecreasing (ndebug : Bool) :
    ∀ (cs : List DrawCmd) (v : Visualizer), Reachable v → v.drawQueue = [] →
      (∀ c ∈ cs, InRange c.count ∧ 1 ≤ c.count) →
      List.Chain (fun a b => a ≤ b) (v.capacity : Int) (cs.map DrawCmd.count) →
      ∃ w, runFrames ndebug cs v = .ok w ∧ Reachable w ∧ w.drawQueue = [] ∧
        (w.capacity : Int) = ((cs.map DrawCmd.count).getLast?).getD (v.capacity : Int) := by
  intro cs
  induction cs with
  | nil => intro v hv hq _ _; exact ⟨v, rfl, hv, hq, rfl⟩
  | cons cmd cs ih =>
    intro v hv hq hr hch
    simp only [List.map_cons, List.chain_cons] at hch
    obtain ⟨hc, h1⟩ := hr cmd (List.mem_cons_self _ _)
    obtain ⟨w1, hw1, hcap1, hq1, _⟩ := drawEvent_nondecreasing ndebug hv hq hc h1 hch.1
    have hreach : Reachable w1 :=
      Reachable.drawEvent ndebug (Reachable.renderParticles cmd hc hv) hw1
    obtain ⟨w, hw, hrw, hqw, hcapw⟩ := ih w1 hreach hq1
      (fun c hcm => hr c (List.mem_cons_of_mem _ hcm)) (by rw [hcap1]; exact hch.2)
    refine ⟨w, ?_, hrw, hqw, ?_⟩
    · simp only [runFrames, hw1]
      exact hw
    · rw [hcapw, hcap1]
      cases cs with
      | nil => simp
      | cons c cs =>
        simp only [List.map_cons, List.getLast?_cons_cons]
        rw [List.getLast?_eq_getLast _ (List.cons_ne_nil _ _)]
        rfl

end Visualizer


end THC
